import Mathlib

set_option maxRecDepth 8000

/-!
Verification of the Blackjack hackathon repository (pythonProject:
protocol.py, server.py, client.py).

Shallow embedding conventions:
* bytes are natural numbers below 256; byte buffers are lists of naturals;
* Python strings crossing the codec (name fields, the Action decision) are
  modelled by their UTF-8 byte encodings; `bytes.decode` validity is modelled
  by a UTF-8 acceptor automaton, since an invalid byte sequence makes the
  Python call raise UnicodeDecodeError (a subclass of ValueError);
* fallible Python code (struct.pack range errors, ValueError on decode)
  becomes Option / Except;
* `random.shuffle` in get_deck is nondeterministic, so theorems about the
  shuffled deck quantify over permutations of the deterministic card list
  the source builds before shuffling;
* the socket sends performed by GameServer.play_round are collected into a
  trace: each `conn.sendall(Protocol.pack_game_state(status, rank, suit))`
  is recorded as the triple (status, rank, suit); the byte encoding of such
  a packet is the codec's `pack_game_state`;
* `deck.pop()` (Python: remove and return the last list element) is `popEnd`;
* the player's inputs arrive over a socket: one round's reads are modelled
  as a list of messages, where `hit`/`stand` are well-formed actions,
  `disconnect` is an empty recv, and `garbage` is data whose unpacking
  raises ValueError; an exhausted message list behaves like a disconnect.
-/

/-- A card is a (rank, suit) pair: rank 1..13, suit 0..3. -/
abbrev Card := Nat × Nat

/-- One sent game-state packet, recorded as (status, rank, suit). -/
abbrev SPacket := Nat × Nat × Nat

/-- Equality of unpack results is decidable (used to check concrete codec
runs by computation). -/
instance {ε α : Type} [DecidableEq ε] [DecidableEq α] : DecidableEq (Except ε α) :=
  fun x y =>
  match x, y with
  | .ok a, .ok b =>
    if h : a = b then .isTrue (by rw [h])
    else .isFalse (by intro hc; cases hc; exact h rfl)
  | .error a, .error b =>
    if h : a = b then .isTrue (by rw [h])
    else .isFalse (by intro hc; cases hc; exact h rfl)
  | .ok _, .error _ => .isFalse (by intro hc; cases hc)
  | .error _, .ok _ => .isFalse (by intro hc; cases hc)

namespace Protocol

/-- protocol.py: MAGIC_COOKIE = 0xabcddcba. -/
def MAGIC_COOKIE : Nat := 0xabcddcba

/-- protocol.py: MSG_TYPE_OFFER = 0x02. -/
def MSG_TYPE_OFFER : Nat := 0x02

/-- protocol.py: MSG_TYPE_REQUEST = 0x03. -/
def MSG_TYPE_REQUEST : Nat := 0x03

/-- protocol.py: MSG_TYPE_PAYLOAD = 0x04. -/
def MSG_TYPE_PAYLOAD : Nat := 0x04

/-- Big-endian encoding of a 32-bit unsigned integer (struct format I with !). -/
def u32be (n : Nat) : List Nat :=
  [n / 16777216 % 256, n / 65536 % 256, n / 256 % 256, n % 256]

/-- Big-endian encoding of a 16-bit unsigned integer (struct format H with !). -/
def u16be (n : Nat) : List Nat :=
  [n / 256 % 256, n % 256]

/-- Big-endian value of a byte list (how struct.unpack reads I and H fields). -/
def be_of (l : List Nat) : Nat :=
  l.foldl (fun acc b => acc * 256 + b) 0

/-- The distinct ValueError conditions raised by the unpack methods. -/
inductive ProtocolError | badSize | badCookie | badTag | badUnicode
deriving DecidableEq, Repr

/-- States of the UTF-8 acceptor (models whether bytes.decode succeeds):
start = at a character boundary, one/two/three = that many unconstrained
continuation bytes pending, e0/ed/f0/f4 = the constrained second byte after
the like-named lead byte is pending, err = the sequence is invalid. -/
inductive Utf8State | start | one | two | three | e0 | ed | f0 | f4 | err
deriving DecidableEq, Repr

/-- Transition of the UTF-8 acceptor on one byte (RFC 3629 table, which is
what Python's bytes.decode accepts: no overlongs, no surrogates). -/
def utf8Step (s : Utf8State) (b : Nat) : Utf8State :=
  match s with
  | .start =>
    if b ≤ 127 then .start
    else if 194 ≤ b ∧ b ≤ 223 then .one
    else if b = 224 then .e0
    else if (225 ≤ b ∧ b ≤ 236) ∨ b = 238 ∨ b = 239 then .two
    else if b = 237 then .ed
    else if b = 240 then .f0
    else if 241 ≤ b ∧ b ≤ 243 then .three
    else if b = 244 then .f4
    else .err
  | .one => if 128 ≤ b ∧ b ≤ 191 then .start else .err
  | .two => if 128 ≤ b ∧ b ≤ 191 then .one else .err
  | .three => if 128 ≤ b ∧ b ≤ 191 then .two else .err
  | .e0 => if 160 ≤ b ∧ b ≤ 191 then .one else .err
  | .ed => if 128 ≤ b ∧ b ≤ 159 then .one else .err
  | .f0 => if 144 ≤ b ∧ b ≤ 191 then .two else .err
  | .f4 => if 128 ≤ b ∧ b ≤ 143 then .two else .err
  | .err => .err

/-- Whether a byte list is valid UTF-8, i.e. whether bytes.decode succeeds. -/
def isValidUTF8 (l : List Nat) : Bool :=
  decide (l.foldl utf8Step Utf8State.start = Utf8State.start)

/-- protocol.py Protocol._pad_string: truncate the encoded text to the fixed
length, or right-pad it with zero bytes. -/
def _pad_string (text : List Nat) (length : Nat) : List Nat :=
  if length < text.length then text.take length
  else text ++ List.replicate (length - text.length) 0

/-- Strip trailing zero bytes (the rstrip of the NUL character; a multi-byte
UTF-8 character never ends in a zero byte, so stripping NUL characters from
the decoded string equals stripping zero bytes from the encoding). -/
def rstripZeros (l : List Nat) : List Nat :=
  (l.reverse.dropWhile (fun b => b == 0)).reverse

/-- protocol.py Protocol._decode_string: bytes.decode (which raises
UnicodeDecodeError, a ValueError, on invalid UTF-8) then rstrip of NUL. -/
def _decode_string (bytes_data : List Nat) : Except ProtocolError (List Nat) :=
  if isValidUTF8 bytes_data then .ok (rstripZeros bytes_data)
  else .error .badUnicode

/-- protocol.py Protocol.pack_offer: struct.pack of format IBH32s with !.
struct.pack raises when the port does not fit the 2-byte H field, hence
the Option. -/
def pack_offer (server_port : Nat) (server_name : List Nat) : Option (List Nat) :=
  if server_port < 65536 then
    some (u32be MAGIC_COOKIE ++ [MSG_TYPE_OFFER] ++ u16be server_port ++
      _pad_string server_name 32)
  else none

/-- protocol.py Protocol.pack_request: struct.pack of format IBB32s with !.
struct.pack raises when the round count does not fit the 1-byte B field. -/
def pack_request (player_name : List Nat) (num_rounds : Nat) : Option (List Nat) :=
  if num_rounds < 256 then
    some (u32be MAGIC_COOKIE ++ [MSG_TYPE_REQUEST] ++ [num_rounds] ++
      _pad_string player_name 32)
  else none

/-- The UTF-8 bytes of the 5-byte decision tag of Hit, the literal Hittt. -/
def HITTT_BYTES : List Nat := [72, 105, 116, 116, 116]

/-- The UTF-8 bytes of the 5-byte decision tag Stand. -/
def STAND_BYTES : List Nat := [83, 116, 97, 110, 100]

/-- protocol.py Protocol.pack_action: Hit encodes as the 5 bytes of Hittt,
Stand as itself; any other action raises ValueError. -/
def pack_action (action : String) : Option (List Nat) :=
  if action = ("Hit") then
    some (u32be MAGIC_COOKIE ++ [MSG_TYPE_PAYLOAD] ++ HITTT_BYTES)
  else if action = ("Stand") then
    some (u32be MAGIC_COOKIE ++ [MSG_TYPE_PAYLOAD] ++ STAND_BYTES)
  else none

/-- protocol.py Protocol.pack_game_state: struct.pack of format IBBHB with !.
struct.pack raises when status or suit does not fit a byte or rank does not
fit two bytes. -/
def pack_game_state (status rank suit : Nat) : Option (List Nat) :=
  if status < 256 ∧ rank < 65536 ∧ suit < 256 then
    some (u32be MAGIC_COOKIE ++ [MSG_TYPE_PAYLOAD] ++ [status] ++
      u16be rank ++ [suit])
  else none

/-- protocol.py Protocol.unpack_offer: check size 39, split the fields,
check cookie and type, decode the name. Returns (port, name). -/
def unpack_offer (data : List Nat) : Except ProtocolError (Nat × List Nat) :=
  if data.length ≠ 39 then .error .badSize
  else
    let cookie := be_of (data.take 4)
    let msg_type := data.getD 4 0
    let port := be_of ((data.drop 5).take 2)
    let name_bytes := data.drop 7
    if cookie ≠ MAGIC_COOKIE then .error .badCookie
    else if msg_type ≠ MSG_TYPE_OFFER then .error .badTag
    else
      match _decode_string name_bytes with
      | .ok nm => .ok (port, nm)
      | .error e => .error e

/-- protocol.py Protocol.unpack_request: check size 38, split the fields,
check cookie and type, decode the name. Returns (rounds, name). -/
def unpack_request (data : List Nat) : Except ProtocolError (Nat × List Nat) :=
  if data.length ≠ 38 then .error .badSize
  else
    let cookie := be_of (data.take 4)
    let msg_type := data.getD 4 0
    let rounds := data.getD 5 0
    let name_bytes := data.drop 6
    if cookie ≠ MAGIC_COOKIE then .error .badCookie
    else if msg_type ≠ MSG_TYPE_REQUEST then .error .badTag
    else
      match _decode_string name_bytes with
      | .ok nm => .ok (rounds, nm)
      | .error e => .error e

/-- protocol.py Protocol.unpack_action: check size 10, check cookie and type,
decode the 5 decision bytes (UnicodeDecodeError on invalid UTF-8), return
Hit when the decoded string is Hittt and Stand for anything else. -/
def unpack_action (data : List Nat) : Except ProtocolError String :=
  if data.length ≠ 10 then .error .badSize
  else
    let cookie := be_of (data.take 4)
    let msg_type := data.getD 4 0
    let action_bytes := data.drop 5
    if cookie ≠ MAGIC_COOKIE then .error .badCookie
    else if msg_type ≠ MSG_TYPE_PAYLOAD then .error .badTag
    else if isValidUTF8 action_bytes then
      if action_bytes = HITTT_BYTES then .ok ("Hit") else .ok ("Stand")
    else .error .badUnicode

/-- protocol.py Protocol.unpack_game_state: check size 9, split the fields,
check cookie and type. Returns (status, rank, suit). -/
def unpack_game_state (data : List Nat) : Except ProtocolError (Nat × Nat × Nat) :=
  if data.length ≠ 9 then .error .badSize
  else
    let cookie := be_of (data.take 4)
    let msg_type := data.getD 4 0
    let status := data.getD 5 0
    let rank := be_of ((data.drop 6).take 2)
    let suit := data.getD 8 0
    if cookie ≠ MAGIC_COOKIE then .error .badCookie
    else if msg_type ≠ MSG_TYPE_PAYLOAD then .error .badTag
    else .ok (status, rank, suit)

/-- Whether an unpack result is a raised ValueError. -/
def isErr {ε α : Type} : Except ε α → Bool
  | .error _ => true
  | .ok _ => false

end Protocol

namespace GameServer

/-- server.py: SUITS = [0, 1, 2, 3]. -/
def SUITS : List Nat := [0, 1, 2, 3]

/-- server.py: RANKS = list(range(1, 14)). -/
def RANKS : List Nat := List.range' 1 13

/-- server.py: STATUS_ACTIVE = 0. -/
def STATUS_ACTIVE : Nat := 0

/-- server.py: STATUS_TIE = 1. -/
def STATUS_TIE : Nat := 1

/-- server.py: STATUS_LOSS = 2. -/
def STATUS_LOSS : Nat := 2

/-- server.py: STATUS_WIN = 3. -/
def STATUS_WIN : Nat := 3

/-- server.py GameServer.get_deck before random.shuffle: the nested loops
append (r, s) for every rank r in RANKS and suit s in SUITS. The shuffle is
nondeterministic, so a run of get_deck returns some permutation of this. -/
def get_deck_base : List Card :=
  RANKS.flatMap (fun r => SUITS.map (fun s => (r, s)))

/-- Python list.pop(): remove and return the last element; IndexError (here
none) on an empty list. -/
def popEnd {α : Type} (l : List α) : Option (α × List α) :=
  match l.reverse with
  | [] => none
  | c :: rest => some (c, rest.reverse)

/-- server.py GameServer.calculate_hand, the closing while loop:
while aces > 0 and value + 10 <= 21: value += 10; aces -= 1. -/
def upgradeAces : Nat → Nat → Nat
  | 0, value => value
  | aces + 1, value =>
    if value + 10 ≤ 21 then upgradeAces aces (value + 10) else value

/-- server.py GameServer.calculate_hand: one pass accumulating (value, aces)
with an Ace counting 1, ranks above 10 counting 10 and other ranks counting
themselves, then the Ace-upgrading while loop. -/
def calculate_hand (cards : List Card) : Nat :=
  let p := cards.foldl
    (fun acc card =>
      if card.1 = 1 then (acc.1 + 1, acc.2 + 1)
      else if 10 < card.1 then (acc.1 + 10, acc.2)
      else (acc.1 + card.1, acc.2)) (0, 0)
  upgradeAces p.2 p.1

/-- One message read from the client inside the player loop of play_round:
a decoded Hit, a decoded Stand, an empty recv (client disconnected), or
bytes whose unpacking raises ValueError. -/
inductive PlayerMsg | hit | stand | disconnect | garbage
deriving DecidableEq, Repr

/-- server.py play_round, the Determine Winner chain: player over 21 is a
loss, else dealer over 21 a win, else comparison, else a tie. -/
def determine_status (player_val dealer_val : Nat) : Nat :=
  if 21 < player_val then STATUS_LOSS
  else if 21 < dealer_val then STATUS_WIN
  else if dealer_val < player_val then STATUS_WIN
  else if player_val < dealer_val then STATUS_LOSS
  else STATUS_TIE

/-- server.py play_round, the dealer loop: while dealer_val < 17, pop a card
from the deck, append it to the dealer hand and recompute. Returns the deck
and the dealer hand after the loop; none models the IndexError of popping an
empty deck. -/
def dealerDraw (deck dealer_cards : List Card) : Option (List Card × List Card) :=
  if calculate_hand dealer_cards < 17 then
    match h : popEnd deck with
    | none => none
    | some (c, deck2) => dealerDraw deck2 (dealer_cards ++ [c])
  else some (deck, dealer_cards)
termination_by deck.length
decreasing_by
  simp only [popEnd] at h
  split at h
  · simp at h
  · rename_i c0 rest heq
    simp only [Option.some.injEq, Prod.mk.injEq] at h
    have hlen := congrArg List.length heq
    simp at hlen
    have h2 : deck2 = rest.reverse := h.2.symm
    subst h2
    simp
    omega

/-- server.py play_round after the player loop: recompute both values, let
the dealer draw (guarded by the player not having busted), then send one
final game-state packet with the determined status and the dealer's last
card. Returns the whole updated trace; none models an IndexError. -/
def dealerPhase (deck player_cards dealer_cards : List Card)
    (trace : List SPacket) : Option (List SPacket) :=
  let player_val := calculate_hand player_cards
  match (if player_val ≤ 21 then dealerDraw deck dealer_cards
         else some (deck, dealer_cards)) with
  | none => none
  | some (_, dealer_cards2) =>
    match dealer_cards2.getLast? with
    | none => none
    | some last_dealer_card =>
      some (trace ++ [(determine_status player_val (calculate_hand dealer_cards2),
        last_dealer_card.1, last_dealer_card.2)])

/-- server.py play_round, the player while loop: break straight to the
dealer when the hand is worth 21 or more; otherwise read one message. A Hit
pops a card and appends it: if the new value busts, send one Loss packet
with that card and return from play_round at once; otherwise send an Active
packet for it and loop. Stand, an empty recv and a ValueError all leave the
loop into the dealer phase. -/
def playerPhase (deck player_cards dealer_cards : List Card)
    (msgs : List PlayerMsg) (trace : List SPacket) : Option (List SPacket) :=
  if 21 ≤ calculate_hand player_cards then
    dealerPhase deck player_cards dealer_cards trace
  else
    match msgs with
    | [] => dealerPhase deck player_cards dealer_cards trace
    | PlayerMsg.hit :: rest =>
      match popEnd deck with
      | none => none
      | some (new_card, deck2) =>
        let player_cards2 := player_cards ++ [new_card]
        if 21 < calculate_hand player_cards2 then
          some (trace ++ [(STATUS_LOSS, new_card.1, new_card.2)])
        else
          playerPhase deck2 player_cards2 dealer_cards rest
            (trace ++ [(STATUS_ACTIVE, new_card.1, new_card.2)])
    | _ :: _ => dealerPhase deck player_cards dealer_cards trace

/-- server.py GameServer.play_round on a given (already shuffled) deck and a
given stream of client messages: pop two player cards and two dealer cards,
send an Active packet for each player card, then run the player loop and the
dealer phase. The result is the list of sent game-state packets; none models
an IndexError from popping an empty deck. -/
def play_round (deck : List Card) (msgs : List PlayerMsg) : Option (List SPacket) :=
  match popEnd deck with
  | none => none
  | some (p1, deck1) =>
    match popEnd deck1 with
    | none => none
    | some (p2, deck2) =>
      match popEnd deck2 with
      | none => none
      | some (d1, deck3) =>
        match popEnd deck3 with
        | none => none
        | some (d2, deck4) =>
          playerPhase deck4 [p1, p2] [d1, d2] msgs
            [(STATUS_ACTIVE, p1.1, p1.2), (STATUS_ACTIVE, p2.1, p2.2)]

/-- cs were obtained by successive pop() calls starting from deck, leaving
deck2. -/
def PopChain : List Card → List Card → List Card → Prop
  | deck, [], deck2 => deck2 = deck
  | deck, c :: cs, deck2 =>
    ∃ deck1, popEnd deck = some (c, deck1) ∧ PopChain deck1 cs deck2

/-- The base value of a hand before Ace upgrading: Ace 1, ranks above 10
count 10, other ranks themselves (the per-card summands of the source's
accumulation loop). -/
def hand_base : List Card → Nat
  | [] => 0
  | card :: rest =>
    (if card.1 = 1 then 1 else if 10 < card.1 then 10 else card.1) + hand_base rest

/-- The number of Aces in a hand. -/
def hand_aces : List Card → Nat
  | [] => 0
  | card :: rest => (if card.1 = 1 then 1 else 0) + hand_aces rest

/-- Modelled from the spec's words for the C4 comparison: the totals
achievable by valuing each Ace as 1 or 11, each face card as 10 and every
other rank at face value, i.e. the base value plus 10 for each of the k
Aces chosen to count 11. -/
def specTotals (cards : List Card) : List Nat :=
  (List.range (hand_aces cards + 1)).map (fun k => hand_base cards + 10 * k)

end GameServer

namespace GameClient

/-- client.py GameClient.calculate_hand, the closing while loop:
while value > 21 and aces > 0: value -= 10; aces -= 1. -/
def demoteAces : Nat → Nat → Nat
  | 0, value => value
  | aces + 1, value =>
    if 21 < value then demoteAces aces (value - 10) else value

/-- client.py GameClient.calculate_hand over a list of ranks: one pass
accumulating (value, aces) with an Ace counting 11, ranks of at least 10
counting 10 and other ranks counting themselves, then the Ace-demoting
while loop. -/
def calculate_hand (cards : List Nat) : Nat :=
  let p := cards.foldl
    (fun acc r =>
      if r = 1 then (acc.1 + 11, acc.2 + 1)
      else if 10 ≤ r then (acc.1 + 10, acc.2)
      else (acc.1 + r, acc.2)) (0, 0)
  demoteAces p.2 p.1

end GameClient

/-! ## Codec lemmas -/

namespace Protocol

lemma pad_string_eq (name : List Nat) :
    _pad_string name 32 = name.take 32 ++ List.replicate (32 - name.length) 0 := by
  unfold _pad_string
  split
  · rename_i h
    have h0 : 32 - name.length = 0 := by omega
    simp [h0]
  · rename_i h
    have ht : name.take 32 = name := List.take_of_length_le (by omega)
    simp [ht]

lemma pad_string_length (name : List Nat) : (_pad_string name 32).length = 32 := by
  rw [pad_string_eq]
  simp
  omega

lemma rstripZeros_append_zeros (l : List Nat) (k : Nat) :
    rstripZeros (l ++ List.replicate k 0) = rstripZeros l := by
  unfold rstripZeros
  rw [List.reverse_append, List.reverse_replicate]
  congr 1
  induction k with
  | zero => simp
  | succ n ih => simpa [List.replicate_succ, List.dropWhile_cons] using ih

lemma foldl_utf8_zeros (k : Nat) :
    List.foldl utf8Step Utf8State.start (List.replicate k 0) = Utf8State.start := by
  induction k with
  | zero => rfl
  | succ n ih => simpa [List.replicate_succ, utf8Step] using ih

lemma isValidUTF8_pad (nm : List Nat) (k : Nat) (h : isValidUTF8 nm = true) :
    isValidUTF8 (nm ++ List.replicate k 0) = true := by
  unfold isValidUTF8 at h ⊢
  rw [List.foldl_append]
  simp only [decide_eq_true_eq] at h ⊢
  rw [h]
  exact foldl_utf8_zeros k

lemma decode_string_pad (nm : List Nat) (k : Nat)
    (hval : isValidUTF8 nm = true) (hstrip : rstripZeros nm = nm) :
    _decode_string (nm ++ List.replicate k 0) = .ok nm := by
  unfold _decode_string
  rw [isValidUTF8_pad nm k hval]
  simp [rstripZeros_append_zeros, hstrip]

lemma be_of_u16 (p : Nat) (h : p < 65536) : be_of (u16be p) = p := by
  simp [be_of, u16be]
  omega

end Protocol

namespace Protocol

lemma unpack_offer_roundtrip (port : Nat) (name : List Nat) (hport : port < 65536)
    (hval : isValidUTF8 (name.take 32) = true)
    (hstrip : rstripZeros (name.take 32) = name.take 32) :
    Option.map unpack_offer (pack_offer port name)
      = some (Except.ok (port, name.take 32)) := by
  unfold pack_offer
  rw [if_pos hport, Option.map_some', Option.some.injEq]
  rw [pad_string_eq]
  have hbuf : u32be MAGIC_COOKIE ++ [MSG_TYPE_OFFER] ++ u16be port ++
      (name.take 32 ++ List.replicate (32 - name.length) 0)
      = 171 :: 205 :: 220 :: 186 :: 2 :: (port / 256 % 256) :: (port % 256) ::
        (name.take 32 ++ List.replicate (32 - name.length) 0) := by
    simp [u32be, u16be, MAGIC_COOKIE, MSG_TYPE_OFFER]
  rw [hbuf]
  have hlen : (171 :: 205 :: 220 :: 186 :: 2 :: (port / 256 % 256) :: (port % 256) ::
      (name.take 32 ++ List.replicate (32 - name.length) 0)).length = 39 := by
    simp
    omega
  unfold unpack_offer
  rw [hlen]
  simp only [ne_eq, reduceIte, List.take_succ_cons, List.take_zero, List.getD,
    List.drop_succ_cons, List.drop_zero]
  have hcookie : be_of [171, 205, 220, 186] = MAGIC_COOKIE := by decide
  rw [hcookie]
  simp only [MAGIC_COOKIE, MSG_TYPE_OFFER, reduceIte]
  rw [decode_string_pad _ _ hval hstrip]
  have hp : be_of [port / 256 % 256, port % 256] = port := be_of_u16 port hport
  simp [hp]

lemma unpack_request_roundtrip (name : List Nat) (rounds : Nat) (hr : rounds < 256)
    (hval : isValidUTF8 (name.take 32) = true)
    (hstrip : rstripZeros (name.take 32) = name.take 32) :
    Option.map unpack_request (pack_request name rounds)
      = some (Except.ok (rounds, name.take 32)) := by
  unfold pack_request
  rw [if_pos hr, Option.map_some', Option.some.injEq]
  rw [pad_string_eq]
  have hbuf : u32be MAGIC_COOKIE ++ [MSG_TYPE_REQUEST] ++ [rounds] ++
      (name.take 32 ++ List.replicate (32 - name.length) 0)
      = 171 :: 205 :: 220 :: 186 :: 3 :: rounds ::
        (name.take 32 ++ List.replicate (32 - name.length) 0) := by
    simp [u32be, MAGIC_COOKIE, MSG_TYPE_REQUEST]
  rw [hbuf]
  have hlen : (171 :: 205 :: 220 :: 186 :: 3 :: rounds ::
      (name.take 32 ++ List.replicate (32 - name.length) 0)).length = 38 := by
    simp
    omega
  unfold unpack_request
  rw [hlen]
  simp only [ne_eq, reduceIte, List.take_succ_cons, List.take_zero, List.getD,
    List.drop_succ_cons, List.drop_zero]
  have hcookie : be_of [171, 205, 220, 186] = MAGIC_COOKIE := by decide
  rw [hcookie]
  simp only [MAGIC_COOKIE, MSG_TYPE_REQUEST, reduceIte]
  rw [decode_string_pad _ _ hval hstrip]
  simp

lemma unpack_game_state_roundtrip (status rank suit : Nat)
    (h1 : status < 256) (h2 : rank < 65536) (h3 : suit < 256) :
    Option.map unpack_game_state (pack_game_state status rank suit)
      = some (Except.ok (status, rank, suit)) := by
  unfold pack_game_state
  rw [if_pos (by exact ⟨h1, h2, h3⟩), Option.map_some', Option.some.injEq]
  have hbuf : u32be MAGIC_COOKIE ++ [MSG_TYPE_PAYLOAD] ++ [status] ++
      u16be rank ++ [suit]
      = 171 :: 205 :: 220 :: 186 :: 4 :: status :: (rank / 256 % 256) ::
        (rank % 256) :: suit :: [] := by
    simp [u32be, u16be, MAGIC_COOKIE, MSG_TYPE_PAYLOAD]
  rw [hbuf]
  unfold unpack_game_state
  simp only [List.length_cons, List.length_nil, ne_eq, reduceIte,
    List.take_succ_cons, List.take_zero, List.getD,
    List.drop_succ_cons, List.drop_zero]
  have hcookie : be_of [171, 205, 220, 186] = MAGIC_COOKIE := by decide
  rw [hcookie]
  have hp : be_of [rank / 256 % 256, rank % 256] = rank := be_of_u16 rank h2
  simp only [MAGIC_COOKIE, MSG_TYPE_PAYLOAD, reduceIte]
  simp [hp]

end Protocol

/-! ## Codec claims -/

/-- Claim C2 counterexample: the round-trip law fails as universally stated.
The name made of a single NUL character has a 1-byte UTF-8 encoding (a
boundary-length valid field value), yet decoding its encoded Offer returns
the empty name, because _decode_string strips the padding zeros together
with the name's own trailing NUL. -/
theorem claim_C2_counterexample :
    Option.map Protocol.unpack_offer (Protocol.pack_offer 5000 [0])
      = some (Except.ok (5000, ([] : List Nat)))
  ∧ Option.map Protocol.unpack_offer (Protocol.pack_offer 5000 [0])
      ≠ some (Except.ok (5000, [0])) := by decide

/-- Claim C2 (amended): for every message kind, decoding an encoded message
returns the original fields, for all valid field values whose name
encodings, once truncated to 32 bytes, are still valid UTF-8 and carry no
trailing zero bytes; names longer than 32 bytes decode back to their 32-byte
truncation. -/
theorem claim_C2 :
    (∀ (port : Nat) (name : List Nat), port < 65536 →
      Protocol.isValidUTF8 (name.take 32) = true →
      Protocol.rstripZeros (name.take 32) = name.take 32 →
      Option.map Protocol.unpack_offer (Protocol.pack_offer port name)
        = some (Except.ok (port, name.take 32)))
  ∧ (∀ (name : List Nat) (rounds : Nat), rounds < 256 →
      Protocol.isValidUTF8 (name.take 32) = true →
      Protocol.rstripZeros (name.take 32) = name.take 32 →
      Option.map Protocol.unpack_request (Protocol.pack_request name rounds)
        = some (Except.ok (rounds, name.take 32)))
  ∧ Option.map Protocol.unpack_action (Protocol.pack_action ("Hit"))
      = some (Except.ok ("Hit"))
  ∧ Option.map Protocol.unpack_action (Protocol.pack_action ("Stand"))
      = some (Except.ok ("Stand"))
  ∧ (∀ status rank suit : Nat, status < 256 → rank < 65536 → suit < 256 →
      Option.map Protocol.unpack_game_state (Protocol.pack_game_state status rank suit)
        = some (Except.ok (status, rank, suit))) :=
  ⟨Protocol.unpack_offer_roundtrip, Protocol.unpack_request_roundtrip,
   by decide, by decide, Protocol.unpack_game_state_roundtrip⟩

/-- Claim C2 witness: the amended round-trip law at concrete inputs — the
Offer of port 13122 and name Team (bytes of T, e, a, m), and the game state
(Active, King, Clubs). -/
theorem claim_C2_witness :
    Option.map Protocol.unpack_offer (Protocol.pack_offer 13122 [84, 101, 97, 109])
      = some (Except.ok (13122, [84, 101, 97, 109]))
  ∧ Option.map Protocol.unpack_game_state (Protocol.pack_game_state 0 13 3)
      = some (Except.ok (0, 13, 3)) := by
  constructor
  · have h := claim_C2.1 13122 [84, 101, 97, 109] (by decide) (by decide) (by decide)
    simpa using h
  · exact claim_C2.2.2.2.2 0 13 3 (by decide) (by decide) (by decide)

/-- Claim C3: for every unpack method, a buffer of the wrong fixed length,
or with a cookie field different from 0xabcddcba, or with a type tag
different from the kind's tag, decodes to a raised ValueError and never to
a value. -/
theorem claim_C3 :
    (∀ data : List Nat,
      (data.length ≠ 39 ∨ Protocol.be_of (data.take 4) ≠ Protocol.MAGIC_COOKIE ∨
        data.getD 4 0 ≠ Protocol.MSG_TYPE_OFFER) →
      Protocol.isErr (Protocol.unpack_offer data) = true)
  ∧ (∀ data : List Nat,
      (data.length ≠ 38 ∨ Protocol.be_of (data.take 4) ≠ Protocol.MAGIC_COOKIE ∨
        data.getD 4 0 ≠ Protocol.MSG_TYPE_REQUEST) →
      Protocol.isErr (Protocol.unpack_request data) = true)
  ∧ (∀ data : List Nat,
      (data.length ≠ 10 ∨ Protocol.be_of (data.take 4) ≠ Protocol.MAGIC_COOKIE ∨
        data.getD 4 0 ≠ Protocol.MSG_TYPE_PAYLOAD) →
      Protocol.isErr (Protocol.unpack_action data) = true)
  ∧ (∀ data : List Nat,
      (data.length ≠ 9 ∨ Protocol.be_of (data.take 4) ≠ Protocol.MAGIC_COOKIE ∨
        data.getD 4 0 ≠ Protocol.MSG_TYPE_PAYLOAD) →
      Protocol.isErr (Protocol.unpack_game_state data) = true) := by
  refine ⟨?_, ?_, ?_, ?_⟩
  · intro data h
    unfold Protocol.unpack_offer
    by_cases hl : data.length = 39
    · rcases h with h | h | h
      · exact absurd hl h
      · simp_all [Protocol.isErr]
      · by_cases hc : Protocol.be_of (data.take 4) = Protocol.MAGIC_COOKIE <;>
          simp_all [Protocol.isErr, List.getD]
    · simp_all [Protocol.isErr]
  · intro data h
    unfold Protocol.unpack_request
    by_cases hl : data.length = 38
    · rcases h with h | h | h
      · exact absurd hl h
      · simp_all [Protocol.isErr]
      · by_cases hc : Protocol.be_of (data.take 4) = Protocol.MAGIC_COOKIE <;>
          simp_all [Protocol.isErr, List.getD]
    · simp_all [Protocol.isErr]
  · intro data h
    unfold Protocol.unpack_action
    by_cases hl : data.length = 10
    · rcases h with h | h | h
      · exact absurd hl h
      · simp_all [Protocol.isErr]
      · by_cases hc : Protocol.be_of (data.take 4) = Protocol.MAGIC_COOKIE <;>
          simp_all [Protocol.isErr, List.getD]
    · simp_all [Protocol.isErr]
  · intro data h
    unfold Protocol.unpack_game_state
    by_cases hl : data.length = 9
    · rcases h with h | h | h
      · exact absurd hl h
      · simp_all [Protocol.isErr]
      · by_cases hc : Protocol.be_of (data.take 4) = Protocol.MAGIC_COOKIE <;>
          simp_all [Protocol.isErr, List.getD]
    · simp_all [Protocol.isErr]

/-- Claim C3 witness: concrete bad buffers for every kind — the empty
buffer (wrong length), an all-zero 38-byte buffer (wrong cookie), a
10-byte buffer with a valid cookie but the Offer tag instead of the
Payload tag, and a 9-byte all-zero buffer — all decode to errors. -/
theorem claim_C3_witness :
    Protocol.isErr (Protocol.unpack_offer []) = true
  ∧ Protocol.isErr (Protocol.unpack_request (List.replicate 38 0)) = true
  ∧ Protocol.isErr (Protocol.unpack_action
      [171, 205, 220, 186, 2, 83, 116, 97, 110, 100]) = true
  ∧ Protocol.isErr (Protocol.unpack_game_state (List.replicate 9 0)) = true :=
  ⟨claim_C3.1 [] (Or.inl (by decide)),
   claim_C3.2.1 (List.replicate 38 0) (Or.inr (Or.inl (by decide))),
   claim_C3.2.2.1 [171, 205, 220, 186, 2, 83, 116, 97, 110, 100]
     (Or.inr (Or.inr (by decide))),
   claim_C3.2.2.2 (List.replicate 9 0) (Or.inr (Or.inl (by decide)))⟩

/-- Claim C10 counterexample: a well-framed Action buffer (length 10, valid
cookie, valid Payload tag) whose five decision bytes are 255 is not
returned as Stand (nor Hit): bytes.decode raises UnicodeDecodeError, so
unpack_action raises rather than coercing. -/
theorem claim_C10_counterexample :
    ([171, 205, 220, 186, 4, 255, 255, 255, 255, 255] : List Nat).length = 10
  ∧ Protocol.be_of (([171, 205, 220, 186, 4, 255, 255, 255, 255, 255] : List Nat).take 4)
      = Protocol.MAGIC_COOKIE
  ∧ ([171, 205, 220, 186, 4, 255, 255, 255, 255, 255] : List Nat).getD 4 0
      = Protocol.MSG_TYPE_PAYLOAD
  ∧ Protocol.unpack_action ([171, 205, 220, 186, 4, 255, 255, 255, 255, 255] : List Nat)
      ≠ Except.ok ("Stand")
  ∧ Protocol.unpack_action ([171, 205, 220, 186, 4, 255, 255, 255, 255, 255] : List Nat)
      ≠ Except.ok ("Hit") := by decide

/-- Claim C10 (amended): a well-framed Action buffer whose decision bytes
are valid UTF-8 decodes to Hit exactly when those bytes are the bytes of
Hittt and to Stand otherwise; well-framed decision bytes that are invalid
UTF-8 raise a ValueError instead; and either way the round engine proceeds
as if the player stood — a Stand message and a ValueError-raising message
drive the player loop to the same result — rather than aborting the
session. -/
theorem claim_C10 :
    (∀ data : List Nat, data.length = 10 →
      Protocol.be_of (data.take 4) = Protocol.MAGIC_COOKIE →
      data.getD 4 0 = Protocol.MSG_TYPE_PAYLOAD →
      Protocol.isValidUTF8 (data.drop 5) = true →
      Protocol.unpack_action data =
        (if data.drop 5 = Protocol.HITTT_BYTES then Except.ok ("Hit")
         else Except.ok ("Stand")))
  ∧ (∀ data : List Nat, data.length = 10 →
      Protocol.be_of (data.take 4) = Protocol.MAGIC_COOKIE →
      data.getD 4 0 = Protocol.MSG_TYPE_PAYLOAD →
      Protocol.isValidUTF8 (data.drop 5) = false →
      Protocol.unpack_action data = Except.error Protocol.ProtocolError.badUnicode)
  ∧ (∀ deck player_cards dealer_cards rest trace,
      GameServer.playerPhase deck player_cards dealer_cards
        (GameServer.PlayerMsg.stand :: rest) trace
      = GameServer.playerPhase deck player_cards dealer_cards
        (GameServer.PlayerMsg.garbage :: rest) trace) := by
  refine ⟨?_, ?_, ?_⟩
  · intro data h1 h2 h3 h4
    unfold Protocol.unpack_action
    simp_all [List.getD]
  · intro data h1 h2 h3 h4
    unfold Protocol.unpack_action
    simp_all [List.getD]
  · intro deck player_cards dealer_cards rest trace
    unfold GameServer.playerPhase
    by_cases h : 21 ≤ GameServer.calculate_hand player_cards <;> simp [h]

/-- Claim C10 witness: a well-framed buffer with decision bytes Stand
decodes to Stand; the buffer with decision bytes Hittt decodes to Hit; and
on a concrete position a Stand message and a garbage message produce the
same round result. -/
theorem claim_C10_witness :
    Protocol.unpack_action [171, 205, 220, 186, 4, 83, 116, 97, 110, 100]
      = Except.ok ("Stand")
  ∧ Protocol.unpack_action [171, 205, 220, 186, 4, 72, 105, 116, 116, 116]
      = Except.ok ("Hit")
  ∧ GameServer.playerPhase [(5, 0)] [(10, 0), (9, 1)] [(10, 2), (9, 3)]
      [GameServer.PlayerMsg.stand] []
    = GameServer.playerPhase [(5, 0)] [(10, 0), (9, 1)] [(10, 2), (9, 3)]
      [GameServer.PlayerMsg.garbage] [] := by
  refine ⟨?_, ?_, ?_⟩
  · have h := claim_C10.1 [171, 205, 220, 186, 4, 83, 116, 97, 110, 100]
      (by decide) (by decide) (by decide) (by decide)
    simpa using h
  · have h := claim_C10.1 [171, 205, 220, 186, 4, 72, 105, 116, 116, 116]
      (by decide) (by decide) (by decide) (by decide)
    simpa using h
  · exact claim_C10.2.2 [(5, 0)] [(10, 0), (9, 1)] [(10, 2), (9, 3)] [] []

/-! ## Hand arithmetic -/

namespace GameServer

lemma calc_foldl (cards : List Card) : ∀ v a : Nat,
    cards.foldl (fun acc card =>
      if card.1 = 1 then (acc.1 + 1, acc.2 + 1)
      else if 10 < card.1 then (acc.1 + 10, acc.2)
      else (acc.1 + card.1, acc.2)) (v, a)
    = (v + hand_base cards, a + hand_aces cards) := by
  induction cards with
  | nil => intro v a; simp [hand_base, hand_aces]
  | cons c rest ih =>
    intro v a
    simp only [List.foldl_cons]
    by_cases h1 : c.1 = 1
    · simp only [h1, reduceIte, ih, hand_base, hand_aces]
      simp only [Prod.mk.injEq]
      omega
    · by_cases h2 : 10 < c.1
      · simp only [h1, h2, reduceIte, ih, hand_base, hand_aces]
        simp only [Prod.mk.injEq]
        omega
      · simp only [h1, h2, reduceIte, ih, hand_base, hand_aces]
        simp only [Prod.mk.injEq]
        omega

lemma calculate_hand_eq (cards : List Card) :
    calculate_hand cards = upgradeAces (hand_aces cards) (hand_base cards) := by
  unfold calculate_hand
  rw [calc_foldl]
  simp

lemma upgradeAces_closed : ∀ a v : Nat,
    upgradeAces a v = v + 10 * min a ((21 - v) / 10) := by
  intro a
  induction a with
  | zero => intro v; simp [upgradeAces]
  | succ n ih =>
    intro v
    unfold upgradeAces
    split
    · rw [ih]
      omega
    · omega

end GameServer

namespace GameClient

lemma demoteAces_closed : ∀ a v : Nat,
    demoteAces a v = v - 10 * min a ((v - 12) / 10) := by
  intro a
  induction a with
  | zero => intro v; simp [demoteAces]
  | succ n ih =>
    intro v
    unfold demoteAces
    split
    · rw [ih]
      omega
    · omega

lemma client_foldl (cards : List Card) : ∀ v a : Nat,
    (cards.map Prod.fst).foldl (fun acc r =>
      if r = 1 then (acc.1 + 11, acc.2 + 1)
      else if 10 ≤ r then (acc.1 + 10, acc.2)
      else (acc.1 + r, acc.2)) (v, a)
    = (v + GameServer.hand_base cards + 10 * GameServer.hand_aces cards,
       a + GameServer.hand_aces cards) := by
  induction cards with
  | nil => intro v a; simp [GameServer.hand_base, GameServer.hand_aces]
  | cons c rest ih =>
    intro v a
    simp only [List.map_cons, List.foldl_cons]
    by_cases h1 : c.1 = 1
    · simp only [h1, reduceIte, ih, GameServer.hand_base, GameServer.hand_aces]
      simp only [Prod.mk.injEq]
      omega
    · by_cases h2 : 10 ≤ c.1
      · have h3 : (if 10 < c.1 then 10 else c.1) = 10 := by split <;> omega
        simp only [h1, h2, reduceIte, ih, GameServer.hand_base, GameServer.hand_aces, h3]
        simp only [Prod.mk.injEq]
        omega
      · have h3 : ¬ 10 < c.1 := by omega
        simp only [h1, h2, h3, reduceIte, ih, GameServer.hand_base, GameServer.hand_aces]
        simp only [Prod.mk.injEq]
        omega

end GameClient

/-- Claim C9: for every list of cards, the server's calculate_hand on the
(rank, suit) pairs and the client's calculate_hand on the bare ranks agree,
despite the server starting each Ace at 1 and upgrading while the client
starts each Ace at 11 and demotes. -/
theorem claim_C9 (cards : List Card) :
    GameServer.calculate_hand cards = GameClient.calculate_hand (cards.map Prod.fst) := by
  rw [GameServer.calculate_hand_eq]
  unfold GameClient.calculate_hand
  rw [GameClient.client_foldl]
  simp only []
  rw [GameServer.upgradeAces_closed, GameClient.demoteAces_closed]
  generalize GameServer.hand_base cards = b
  generalize GameServer.hand_aces cards = a
  omega

/-- Claim C4: calculate_hand returns the maximal soft/hard-Ace valuation of
a hand that stays at 21 or below, or the minimal bust valuation when every
valuation busts. The achievable valuations (spec side) are the base total —
Ace 1, face cards 10, others at face value — plus 10 for each Ace chosen to
count 11; the base total is their minimum. The three examples of the spec
evaluate as stated. -/
theorem claim_C4 :
    (∀ cards : List Card,
      GameServer.calculate_hand cards ∈ GameServer.specTotals cards
      ∧ GameServer.hand_base cards ∈ GameServer.specTotals cards
      ∧ (∀ t ∈ GameServer.specTotals cards, GameServer.hand_base cards ≤ t)
      ∧ (GameServer.hand_base cards ≤ 21 →
          GameServer.calculate_hand cards ≤ 21 ∧
          ∀ t ∈ GameServer.specTotals cards, t ≤ 21 →
            t ≤ GameServer.calculate_hand cards)
      ∧ (21 < GameServer.hand_base cards →
          GameServer.calculate_hand cards = GameServer.hand_base cards ∧
          ∀ t ∈ GameServer.specTotals cards, GameServer.calculate_hand cards ≤ t))
  ∧ GameServer.calculate_hand [(1, 0), (13, 1)] = 21
  ∧ GameServer.calculate_hand [(1, 0), (1, 1), (9, 2)] = 21
  ∧ GameServer.calculate_hand [(13, 0), (12, 1), (2, 2)] = 22 := by
  refine ⟨?_, by decide, by decide, by decide⟩
  intro cards
  rw [GameServer.calculate_hand_eq, GameServer.upgradeAces_closed]
  refine ⟨?_, ?_, ?_, ?_, ?_⟩
  · simp only [GameServer.specTotals, List.mem_map, List.mem_range]
    exact ⟨min (GameServer.hand_aces cards) ((21 - GameServer.hand_base cards) / 10),
      by omega, rfl⟩
  · simp only [GameServer.specTotals, List.mem_map, List.mem_range]
    exact ⟨0, by omega, by omega⟩
  · intro t ht
    simp only [GameServer.specTotals, List.mem_map, List.mem_range] at ht
    obtain ⟨k, hk, rfl⟩ := ht
    omega
  · intro hb
    refine ⟨by omega, ?_⟩
    intro t ht hle
    simp only [GameServer.specTotals, List.mem_map, List.mem_range] at ht
    obtain ⟨k, hk, rfl⟩ := ht
    omega
  · intro hb
    refine ⟨by omega, ?_⟩
    intro t ht
    simp only [GameServer.specTotals, List.mem_map, List.mem_range] at ht
    obtain ⟨k, hk, rfl⟩ := ht
    omega

/-- Claim C4 witness: on the concrete soft hand Ace, Ace, 9 the computed
value 21 lies among the achievable totals, stays at or below 21 and
dominates the achievable total 21; on the bust hand King, Queen, 2 the
computed value is a lower bound of the achievable total 22. -/
theorem claim_C4_witness :
    GameServer.calculate_hand [(1, 0), (1, 1), (9, 2)]
      ∈ GameServer.specTotals [(1, 0), (1, 1), (9, 2)]
  ∧ GameServer.calculate_hand [(1, 0), (1, 1), (9, 2)] ≤ 21
  ∧ 21 ≤ GameServer.calculate_hand [(1, 0), (1, 1), (9, 2)]
  ∧ GameServer.calculate_hand [(13, 0), (12, 1), (2, 2)] ≤ 22 :=
  ⟨(claim_C4.1 [(1, 0), (1, 1), (9, 2)]).1,
   ((claim_C4.1 [(1, 0), (1, 1), (9, 2)]).2.2.2.1 (by decide)).1,
   ((claim_C4.1 [(1, 0), (1, 1), (9, 2)]).2.2.2.1 (by decide)).2 21
     (by decide) (by decide),
   ((claim_C4.1 [(13, 0), (12, 1), (2, 2)]).2.2.2.2 (by decide)).2 22 (by decide)⟩

/-! ## Round engine lemmas -/

namespace GameServer

lemma popEnd_eq_some {α : Type} (l l2 : List α) (c : α) :
    popEnd l = some (c, l2) ↔ l = l2 ++ [c] := by
  constructor
  · intro h
    unfold popEnd at h
    split at h
    · simp at h
    · rename_i c0 rest heq
      simp only [Option.some.injEq, Prod.mk.injEq] at h
      obtain ⟨h1, h2⟩ := h
      subst h1
      subst h2
      have h3 := congrArg List.reverse heq
      simpa using h3
  · intro h
    subst h
    unfold popEnd
    simp

lemma popEnd_none_iff {α : Type} (l : List α) : popEnd l = none ↔ l = [] := by
  unfold popEnd
  split
  · rename_i heq
    have h := congrArg List.reverse heq
    simp at h
    simp [h]
  · rename_i c rest heq
    constructor
    · intro h
      simp at h
    · intro h
      subst h
      simp at heq

lemma hand_base_ge_length : ∀ cards : List Card,
    (∀ c ∈ cards, 1 ≤ c.1) → cards.length ≤ hand_base cards := by
  intro cards
  induction cards with
  | nil => intro _; simp [hand_base]
  | cons c rest ih =>
    intro h
    simp only [hand_base, List.length_cons]
    have h1 : 1 ≤ c.1 := h c (by simp)
    have h2 := ih (fun x hx => h x (by simp [hx]))
    have h3 : 1 ≤ (if c.1 = 1 then 1 else if 10 < c.1 then 10 else c.1) := by
      split
      · omega
      · split <;> omega
    omega

lemma calculate_hand_ge_base (cards : List Card) :
    hand_base cards ≤ calculate_hand cards := by
  rw [calculate_hand_eq, upgradeAces_closed]
  omega

lemma calculate_hand_ge_length (cards : List Card) (h : ∀ c ∈ cards, 1 ≤ c.1) :
    cards.length ≤ calculate_hand cards :=
  le_trans (hand_base_ge_length cards h) (calculate_hand_ge_base cards)

lemma popChain_decomp : ∀ (cs deck deck2 : List Card),
    PopChain deck cs deck2 → deck = deck2 ++ cs.reverse := by
  intro cs
  induction cs with
  | nil =>
    intro deck deck2 h
    simp only [PopChain] at h
    simp [h]
  | cons c rest ih =>
    intro deck deck2 h
    simp only [PopChain] at h
    obtain ⟨deck1, hpop, hchain⟩ := h
    rw [(popEnd_eq_some _ _ _).mp hpop, ih deck1 deck2 hchain]
    simp

end GameServer

namespace GameServer

lemma dealerDraw_stand (deck dc : List Card) (h : 17 ≤ calculate_hand dc) :
    dealerDraw deck dc = some (deck, dc) := by
  unfold dealerDraw
  rw [if_neg (by omega)]

lemma dealerDraw_step (deck dc : List Card) (c : Card) (deck2 : List Card)
    (h : calculate_hand dc < 17) (hp : popEnd deck = some (c, deck2)) :
    dealerDraw deck dc = dealerDraw deck2 (dc ++ [c]) := by
  conv_lhs => rw [dealerDraw]
  rw [if_pos h, hp]

lemma dealerDraw_final : ∀ (deck dc deck2 dc2 : List Card),
    dealerDraw deck dc = some (deck2, dc2) →
    17 ≤ calculate_hand dc2 ∧ ∃ ds, PopChain deck ds deck2 ∧ dc2 = dc ++ ds := by
  intro deck dc
  induction deck, dc using dealerDraw.induct with
  | case1 deck dc hlt hpop =>
    intro deck2 dc2 h
    unfold dealerDraw at h
    rw [if_pos hlt, hpop] at h
    simp at h
  | case2 deck dc hlt c deck1 hpop ih =>
    intro deck2 dc2 h
    rw [dealerDraw_step deck dc c deck1 hlt hpop] at h
    obtain ⟨h17, ds, hchain, hdc⟩ := ih deck2 dc2 h
    exact ⟨h17, c :: ds, ⟨deck1, hpop, hchain⟩, by simp [hdc]⟩
  | case3 deck dc hge =>
    intro deck2 dc2 h
    rw [dealerDraw_stand deck dc (by omega)] at h
    simp only [Option.some.injEq, Prod.mk.injEq] at h
    obtain ⟨h1, h2⟩ := h
    subst h1
    subst h2
    exact ⟨by omega, [], by simp [PopChain], by simp⟩

end GameServer

namespace GameServer

lemma dealerDraw_ne_none : ∀ deck dc : List Card,
    (∀ c ∈ deck, 1 ≤ c.1) → (∀ c ∈ dc, 1 ≤ c.1) →
    17 ≤ deck.length + dc.length → dealerDraw deck dc ≠ none := by
  intro deck dc
  induction deck, dc using dealerDraw.induct with
  | case1 deck dc hlt hpop =>
    intro hd hc hlen
    have hdeck : deck = [] := (popEnd_none_iff deck).mp hpop
    have hcl : dc.length ≤ calculate_hand dc := calculate_hand_ge_length dc hc
    subst hdeck
    simp at hlen
    omega
  | case2 deck dc hlt c deck1 hpop ih =>
    intro hd hc hlen
    rw [dealerDraw_step deck dc c deck1 hlt hpop]
    have hdecomp : deck = deck1 ++ [c] := (popEnd_eq_some _ _ _).mp hpop
    refine ih ?_ ?_ ?_
    · intro x hx
      exact hd x (by rw [hdecomp]; simp [hx])
    · intro x hx
      rcases List.mem_append.mp hx with hx | hx
      · exact hc x hx
      · simp at hx
        subst hx
        exact hd x (by rw [hdecomp]; simp)
    · have : deck.length = deck1.length + 1 := by rw [hdecomp]; simp
      simp only [List.length_append, List.length_cons, List.length_nil]
      omega
  | case3 deck dc hge =>
    intro hd hc hlen
    rw [dealerDraw_stand deck dc (by omega)]
    simp

lemma dealerPhase_shape : ∀ (deck pc dc : List Card) (trace tr : List SPacket),
    dealerPhase deck pc dc trace = some tr →
    ∃ (dc2 ds deck2 : List Card) (c : Card),
      PopChain deck ds deck2 ∧ dc2 = dc ++ ds ∧ dc2.getLast? = some c ∧
      (21 < calculate_hand pc → ds = []) ∧
      (calculate_hand pc ≤ 21 → dealerDraw deck dc = some (deck2, dc2)) ∧
      tr = trace ++
        [(determine_status (calculate_hand pc) (calculate_hand dc2), c.1, c.2)] := by
  intro deck pc dc trace tr h
  simp only [dealerPhase] at h
  by_cases hp : calculate_hand pc ≤ 21
  · rw [if_pos hp] at h
    cases hdd : dealerDraw deck dc with
    | none => rw [hdd] at h; simp at h
    | some p =>
      obtain ⟨deck2, dc2⟩ := p
      rw [hdd] at h
      simp only at h
      cases hlast : dc2.getLast? with
      | none => rw [hlast] at h; simp at h
      | some c =>
        rw [hlast] at h
        simp only [Option.some.injEq] at h
        obtain ⟨h17, ds, hchain, hdc⟩ := dealerDraw_final deck dc deck2 dc2 hdd
        exact ⟨dc2, ds, deck2, c, hchain, hdc, hlast, by intro hcon; omega,
          fun _ => rfl, h.symm⟩
  · rw [if_neg hp] at h
    simp only at h
    cases hlast : dc.getLast? with
    | none => rw [hlast] at h; simp at h
    | some c =>
      rw [hlast] at h
      simp only [Option.some.injEq] at h
      exact ⟨dc, [], deck, c, by simp [PopChain], by simp, hlast,
        fun _ => rfl, by intro hcon; omega, h.symm⟩

end GameServer

namespace GameServer

lemma getLast?_of_ne_nil {α : Type} (l : List α) (h : l ≠ []) :
    ∃ c, l.getLast? = some c := by
  have h1 : l.getLast?.isSome := List.getLast?_isSome.mpr h
  exact Option.isSome_iff_exists.mp h1

lemma dealerPhase_ne_none : ∀ (deck pc dc : List Card) (trace : List SPacket),
    (∀ c ∈ deck, 1 ≤ c.1) → (∀ c ∈ dc, 1 ≤ c.1) → dc ≠ [] →
    17 ≤ deck.length + dc.length →
    dealerPhase deck pc dc trace ≠ none := by
  intro deck pc dc trace hd hc hne hlen
  simp only [dealerPhase]
  by_cases hp : calculate_hand pc ≤ 21
  · rw [if_pos hp]
    cases hdd : dealerDraw deck dc with
    | none => exact absurd hdd (dealerDraw_ne_none deck dc hd hc hlen)
    | some p =>
      obtain ⟨deck2, dc2⟩ := p
      simp only
      obtain ⟨h17, ds, hchain, hdc⟩ := dealerDraw_final deck dc deck2 dc2 hdd
      have hne2 : dc2 ≠ [] := by
        subst hdc
        simp [hne]
      obtain ⟨c, hlast⟩ := getLast?_of_ne_nil dc2 hne2
      rw [hlast]
      simp
  · rw [if_neg hp]
    simp only
    obtain ⟨c, hlast⟩ := getLast?_of_ne_nil dc hne
    rw [hlast]
    simp

lemma playerPhase_shape : ∀ (msgs : List PlayerMsg) (deck pc dc : List Card)
    (trace tr : List SPacket),
    playerPhase deck pc dc msgs trace = some tr →
    ∃ (drawn deck2 : List Card),
      PopChain deck drawn deck2 ∧
      ((∃ ds c, drawn = ds ++ [c] ∧
          tr = trace ++ ds.map (fun x => (STATUS_ACTIVE, x.1, x.2))
             ++ [(STATUS_LOSS, c.1, c.2)])
       ∨ dealerPhase deck2 (pc ++ drawn) dc
           (trace ++ drawn.map (fun x => (STATUS_ACTIVE, x.1, x.2))) = some tr) := by
  intro msgs
  induction msgs with
  | nil =>
    intro deck pc dc trace tr h
    refine ⟨[], deck, by simp [PopChain], Or.inr ?_⟩
    unfold playerPhase at h
    split at h <;> simpa using h
  | cons m rest ih =>
    intro deck pc dc trace tr h
    by_cases h21 : 21 ≤ calculate_hand pc
    · refine ⟨[], deck, by simp [PopChain], Or.inr ?_⟩
      unfold playerPhase at h
      rw [if_pos h21] at h
      simpa using h
    · unfold playerPhase at h
      rw [if_neg h21] at h
      cases m with
      | hit =>
        simp only at h
        cases hpop : popEnd deck with
        | none =>
          rw [hpop] at h
          simp at h
        | some p =>
          obtain ⟨c, deck1⟩ := p
          rw [hpop] at h
          simp only at h
          by_cases hbust : 21 < calculate_hand (pc ++ [c])
          · rw [if_pos hbust] at h
            simp only [Option.some.injEq] at h
            exact ⟨[c], deck1, ⟨deck1, hpop, by simp [PopChain]⟩,
              Or.inl ⟨[], c, by simp, by simp [h.symm]⟩⟩
          · rw [if_neg hbust] at h
            obtain ⟨drawn, deck2, hchain, hrest⟩ := ih deck1 (pc ++ [c]) dc _ tr h
            refine ⟨c :: drawn, deck2, ⟨deck1, hpop, hchain⟩, ?_⟩
            rcases hrest with ⟨ds, c2, hdrawn, htr⟩ | hdp
            · exact Or.inl ⟨c :: ds, c2, by simp [hdrawn], by simpa using htr⟩
            · exact Or.inr (by simpa [List.append_assoc] using hdp)
      | stand =>
        refine ⟨[], deck, by simp [PopChain], Or.inr ?_⟩
        simpa using h
      | disconnect =>
        refine ⟨[], deck, by simp [PopChain], Or.inr ?_⟩
        simpa using h
      | garbage =>
        refine ⟨[], deck, by simp [PopChain], Or.inr ?_⟩
        simpa using h

end GameServer

namespace GameServer

lemma playerPhase_ne_none : ∀ (msgs : List PlayerMsg) (deck pc dc : List Card)
    (trace : List SPacket),
    (∀ c ∈ deck, 1 ≤ c.1) → (∀ c ∈ pc, 1 ≤ c.1) → (∀ c ∈ dc, 1 ≤ c.1) →
    dc ≠ [] → pc.length ≤ 21 → dc.length ≤ 2 →
    38 ≤ deck.length + pc.length + dc.length →
    playerPhase deck pc dc msgs trace ≠ none := by
  intro msgs
  induction msgs with
  | nil =>
    intro deck pc dc trace hd hp hc hne hp21 hdc2 hlen
    unfold playerPhase
    split <;> exact dealerPhase_ne_none deck pc dc trace hd hc hne (by omega)
  | cons m rest ih =>
    intro deck pc dc trace hd hp hc hne hp21 hdc2 hlen
    unfold playerPhase
    by_cases h21 : 21 ≤ calculate_hand pc
    · rw [if_pos h21]
      exact dealerPhase_ne_none deck pc dc trace hd hc hne (by omega)
    · rw [if_neg h21]
      cases m with
      | hit =>
        simp only
        cases hpop : popEnd deck with
        | none =>
          exfalso
          have hd0 : deck = [] := (popEnd_none_iff deck).mp hpop
          rw [hd0] at hlen
          simp at hlen
          omega
        | some p =>
          obtain ⟨c, deck1⟩ := p
          simp only
          by_cases hbust : 21 < calculate_hand (pc ++ [c])
          · rw [if_pos hbust]
            simp
          · rw [if_neg hbust]
            have hdecomp : deck = deck1 ++ [c] := (popEnd_eq_some _ _ _).mp hpop
            have hlen1 : deck.length = deck1.length + 1 := by rw [hdecomp]; simp
            have hplen : pc.length ≤ calculate_hand pc := calculate_hand_ge_length pc hp
            refine ih deck1 (pc ++ [c]) dc _ ?_ ?_ hc hne ?_ hdc2 ?_
            · intro x hx
              exact hd x (by rw [hdecomp]; simp [hx])
            · intro x hx
              rcases List.mem_append.mp hx with hx | hx
              · exact hp x hx
              · simp at hx
                subst hx
                exact hd x (by rw [hdecomp]; simp)
            · simp only [List.length_append, List.length_cons, List.length_nil]
              omega
            · simp only [List.length_append, List.length_cons, List.length_nil]
              omega
      | stand =>
        exact dealerPhase_ne_none deck pc dc trace hd hc hne (by omega)
      | disconnect =>
        exact dealerPhase_ne_none deck pc dc trace hd hc hne (by omega)
      | garbage =>
        exact dealerPhase_ne_none deck pc dc trace hd hc hne (by omega)

end GameServer

/-- Claim C5: when the player loop reads a Hit while the hand is below 21
and the popped card pushes the hand value over 21, the round returns at
once with the trace extended by exactly one Loss packet carrying that
card's rank and suit — no dealer draw, no further packet, in particular no
dealer card. -/
theorem claim_C5 : ∀ (deck player_cards dealer_cards : List Card)
    (rest : List GameServer.PlayerMsg) (trace : List SPacket)
    (c : Card) (deck2 : List Card),
    GameServer.calculate_hand player_cards < 21 →
    GameServer.popEnd deck = some (c, deck2) →
    21 < GameServer.calculate_hand (player_cards ++ [c]) →
    GameServer.playerPhase deck player_cards dealer_cards
      (GameServer.PlayerMsg.hit :: rest) trace
      = some (trace ++ [(GameServer.STATUS_LOSS, c.1, c.2)]) := by
  intro deck pc dc rest trace c deck2 hlt hpop hbust
  unfold GameServer.playerPhase
  rw [if_neg (by omega)]
  simp only
  rw [hpop]
  simp only
  rw [if_pos hbust]

/-- Claim C5 witness: the player holding 10, 9 hits into a 5, busts at 24,
and the round's remaining output is the single Loss packet carrying the 5
of Spades — the dealer's cards are never sent. -/
theorem claim_C5_witness :
    GameServer.playerPhase [(5, 0)] [(10, 1), (9, 2)] [(13, 3), (2, 0)]
      [GameServer.PlayerMsg.hit] []
    = some [(GameServer.STATUS_LOSS, 5, 0)] := by
  have h := claim_C5 [(5, 0)] [(10, 1), (9, 2)] [(13, 3), (2, 0)] [] [] (5, 0) []
    (by decide) (by decide) (by decide)
  simpa using h

/-- Claim C6: the dealer loop never draws once the dealer hand is worth 17
or more, draws exactly one card then re-evaluates while the hand is worth
less than 17, and whenever it terminates normally the final dealer hand is
worth at least 17; the hand 6, 10 is worth 16, so the dealer holding it
draws exactly one more card, whatever that card is. -/
theorem claim_C6 :
    (∀ deck dc : List Card, 17 ≤ GameServer.calculate_hand dc →
      GameServer.dealerDraw deck dc = some (deck, dc))
  ∧ (∀ (deck dc : List Card) (c : Card) (deck2 : List Card),
      GameServer.calculate_hand dc < 17 →
      GameServer.popEnd deck = some (c, deck2) →
      GameServer.dealerDraw deck dc = GameServer.dealerDraw deck2 (dc ++ [c]))
  ∧ (∀ deck dc deck2 dc2 : List Card,
      GameServer.dealerDraw deck dc = some (deck2, dc2) →
      17 ≤ GameServer.calculate_hand dc2)
  ∧ GameServer.calculate_hand [(6, 0), (10, 1)] = 16
  ∧ (∀ (deck : List Card) (c : Card) (deck2 : List Card),
      GameServer.popEnd deck = some (c, deck2) →
      GameServer.dealerDraw deck [(6, 0), (10, 1)]
        = GameServer.dealerDraw deck2 [(6, 0), (10, 1), c]) := by
  refine ⟨GameServer.dealerDraw_stand, GameServer.dealerDraw_step,
    ?_, by decide, ?_⟩
  · intro deck dc deck2 dc2 h
    exact (GameServer.dealerDraw_final deck dc deck2 dc2 h).1
  · intro deck c deck2 hpop
    have h := GameServer.dealerDraw_step deck [(6, 0), (10, 1)] c deck2
      (by decide) hpop
    simpa using h

/-- Claim C6 witness: a dealer holding 10, 7 (value 17) draws nothing; a
dealer holding 6, 10 (value 16) with a 4 on top of the deck draws it and
re-enters the loop; a terminated draw starting from 6, 10 over the deck
holding a single 4 ends with a hand worth at least 17. -/
theorem claim_C6_witness :
    GameServer.dealerDraw [(4, 2)] [(10, 0), (7, 1)] = some ([(4, 2)], [(10, 0), (7, 1)])
  ∧ GameServer.dealerDraw [(4, 2)] [(6, 0), (10, 1)]
      = GameServer.dealerDraw [] [(6, 0), (10, 1), (4, 2)]
  ∧ 17 ≤ GameServer.calculate_hand [(6, 0), (10, 1), (4, 2)] :=
  ⟨claim_C6.1 [(4, 2)] [(10, 0), (7, 1)] (by decide),
   claim_C6.2.2.2.2 [(4, 2)] (4, 2) [] (by decide),
   claim_C6.2.2.1 [] [(6, 0), (10, 1), (4, 2)] [] [(6, 0), (10, 1), (4, 2)]
     (claim_C6.1 [] [(6, 0), (10, 1), (4, 2)] (by decide))⟩

/-- Claim C7: the terminal status is decided in the stated order — player
bust to Loss (2), else dealer bust to Win (3), else the higher value wins,
else a Draw (1) — and the dealer phase appends exactly one packet, carrying
that status together with the last card of the final dealer hand. -/
theorem claim_C7 :
    (∀ p d : Nat,
      (21 < p → GameServer.determine_status p d = GameServer.STATUS_LOSS)
      ∧ (p ≤ 21 → 21 < d → GameServer.determine_status p d = GameServer.STATUS_WIN)
      ∧ (p ≤ 21 → d ≤ 21 → d < p →
          GameServer.determine_status p d = GameServer.STATUS_WIN)
      ∧ (p ≤ 21 → d ≤ 21 → p < d →
          GameServer.determine_status p d = GameServer.STATUS_LOSS)
      ∧ (p ≤ 21 → d ≤ 21 → p = d →
          GameServer.determine_status p d = GameServer.STATUS_TIE))
  ∧ GameServer.STATUS_TIE = 1 ∧ GameServer.STATUS_LOSS = 2
  ∧ GameServer.STATUS_WIN = 3
  ∧ (∀ (deck pc dc : List Card) (trace tr : List SPacket),
      GameServer.dealerPhase deck pc dc trace = some tr →
      ∃ (dc2 : List Card) (c : Card),
        dc2.getLast? = some c ∧
        (∃ ds deck2, GameServer.PopChain deck ds deck2 ∧ dc2 = dc ++ ds) ∧
        tr = trace ++ [(GameServer.determine_status (GameServer.calculate_hand pc)
          (GameServer.calculate_hand dc2), c.1, c.2)]) := by
  refine ⟨?_, rfl, rfl, rfl, ?_⟩
  · intro p d
    refine ⟨?_, ?_, ?_, ?_, ?_⟩ <;>
    · intros
      unfold GameServer.determine_status GameServer.STATUS_LOSS
        GameServer.STATUS_WIN GameServer.STATUS_TIE
      split_ifs <;> omega
  · intro deck pc dc trace tr h
    obtain ⟨dc2, ds, deck2, c, hchain, hdc, hlast, _, _, htr⟩ :=
      GameServer.dealerPhase_shape deck pc dc trace tr h
    exact ⟨dc2, c, hlast, ⟨ds, deck2, hchain, hdc⟩, htr⟩

/-- Claim C7 witness: the outcome chain at concrete values — a busted
player loses even against a busted dealer, a standing player wins against a
dealer bust, equal 19s draw — and a concrete dealer phase (player 19,
dealer 19, no draw needed) sends exactly the one terminal packet with the
Draw status and the dealer's last card, the 9 of Clubs. -/
theorem claim_C7_witness :
    GameServer.determine_status 24 23 = GameServer.STATUS_LOSS
  ∧ GameServer.determine_status 19 22 = GameServer.STATUS_WIN
  ∧ GameServer.determine_status 19 19 = GameServer.STATUS_TIE
  ∧ (∃ (dc2 : List Card) (c : Card),
      dc2.getLast? = some c ∧
      (∃ ds deck2, GameServer.PopChain [] ds deck2 ∧ dc2 = [(10, 2), (9, 3)] ++ ds) ∧
      ([(1, 9, 3)] : List SPacket) = [] ++
        [(GameServer.determine_status
            (GameServer.calculate_hand [(10, 0), (9, 1)])
            (GameServer.calculate_hand dc2), c.1, c.2)]) :=
  ⟨(claim_C7.1 24 23).1 (by decide),
   (claim_C7.1 19 22).2.1 (by decide) (by decide),
   (claim_C7.1 19 19).2.2.2.2 (by decide) (by decide) rfl,
   claim_C7.2.2.2.2 [] [(10, 0), (9, 1)] [(10, 2), (9, 3)] [] [(1, 9, 3)]
     (by
      simp only [GameServer.dealerPhase]
      rw [if_pos (by decide),
        GameServer.dealerDraw_stand [] [(10, 2), (9, 3)] (by decide)]
      rfl)⟩

namespace GameServer

lemma get_deck_base_mem : ∀ c : Card,
    c ∈ get_deck_base ↔ (1 ≤ c.1 ∧ c.1 ≤ 13 ∧ c.2 ≤ 3) := by
  intro c
  constructor
  · intro h
    rw [get_deck_base, List.mem_flatMap] at h
    obtain ⟨r, hr, h2⟩ := h
    rw [List.mem_map] at h2
    obtain ⟨s, hs, hc⟩ := h2
    rw [RANKS, List.mem_range'_1] at hr
    rw [SUITS] at hs
    simp at hs
    subst hc
    simp only
    omega
  · rintro ⟨h1, h2, h3⟩
    rw [get_deck_base, List.mem_flatMap]
    refine ⟨c.1, ?_, ?_⟩
    · rw [RANKS, List.mem_range'_1]
      omega
    · rw [List.mem_map]
      refine ⟨c.2, ?_, by simp⟩
      rw [SUITS]
      simp
      omega

lemma popEnd_removes : ∀ (l : List Card) (c : Card) (l2 : List Card),
    popEnd l = some (c, l2) → l = l2 ++ [c] ∧ (l.Nodup → c ∉ l2) := by
  intro l c l2 h
  have hd := (popEnd_eq_some l l2 c).mp h
  refine ⟨hd, ?_⟩
  intro hn
  rw [hd] at hn
  have hdisj := List.disjoint_of_nodup_append hn
  intro hmem
  exact hdisj hmem (by simp)

lemma play_round_ne_none : ∀ (deck : List Card) (msgs : List PlayerMsg),
    deck.length = 52 → (∀ c ∈ deck, 1 ≤ c.1) →
    play_round deck msgs ≠ none := by
  intro deck msgs hlen hrank
  unfold play_round
  cases hp1 : popEnd deck with
  | none =>
    exfalso
    have h0 := (popEnd_none_iff deck).mp hp1
    rw [h0] at hlen
    simp at hlen
  | some q1 =>
    obtain ⟨p1, deck1⟩ := q1
    have hd1 : deck = deck1 ++ [p1] := (popEnd_eq_some _ _ _).mp hp1
    have hl1 : deck1.length = 51 := by
      have := congrArg List.length hd1
      simp at this
      omega
    have hr1 : ∀ c ∈ deck1, 1 ≤ c.1 := fun c hc => hrank c (by rw [hd1]; simp [hc])
    simp only
    cases hp2 : popEnd deck1 with
    | none =>
      exfalso
      have h0 := (popEnd_none_iff deck1).mp hp2
      rw [h0] at hl1
      simp at hl1
    | some q2 =>
      obtain ⟨p2, deck2⟩ := q2
      have hd2 : deck1 = deck2 ++ [p2] := (popEnd_eq_some _ _ _).mp hp2
      have hl2 : deck2.length = 50 := by
        have := congrArg List.length hd2
        simp at this
        omega
      have hr2 : ∀ c ∈ deck2, 1 ≤ c.1 := fun c hc => hr1 c (by rw [hd2]; simp [hc])
      simp only
      cases hp3 : popEnd deck2 with
      | none =>
        exfalso
        have h0 := (popEnd_none_iff deck2).mp hp3
        rw [h0] at hl2
        simp at hl2
      | some q3 =>
        obtain ⟨d1, deck3⟩ := q3
        have hd3 : deck2 = deck3 ++ [d1] := (popEnd_eq_some _ _ _).mp hp3
        have hl3 : deck3.length = 49 := by
          have := congrArg List.length hd3
          simp at this
          omega
        have hr3 : ∀ c ∈ deck3, 1 ≤ c.1 := fun c hc => hr2 c (by rw [hd3]; simp [hc])
        simp only
        cases hp4 : popEnd deck3 with
        | none =>
          exfalso
          have h0 := (popEnd_none_iff deck3).mp hp4
          rw [h0] at hl3
          simp at hl3
        | some q4 =>
          obtain ⟨d2, deck4⟩ := q4
          have hd4 : deck3 = deck4 ++ [d2] := (popEnd_eq_some _ _ _).mp hp4
          have hl4 : deck4.length = 48 := by
            have := congrArg List.length hd4
            simp at this
            omega
          have hr4 : ∀ c ∈ deck4, 1 ≤ c.1 := fun c hc => hr3 c (by rw [hd4]; simp [hc])
          simp only
          refine playerPhase_ne_none msgs deck4 [p1, p2] [d1, d2] _ hr4 ?_ ?_
            (by simp) (by simp) (by simp) (by simp [hl4])
          · intro x hx
            simp at hx
            rcases hx with hx | hx
            · rw [hx]
              exact hrank p1 (by rw [hd1]; simp)
            · rw [hx]
              exact hr1 p2 (by rw [hd2]; simp)
          · intro x hx
            simp at hx
            rcases hx with hx | hx
            · rw [hx]
              exact hr2 d1 (by rw [hd3]; simp)
            · rw [hx]
              exact hr3 d2 (by rw [hd4]; simp)

end GameServer

namespace GameServer

lemma play_round_shape : ∀ (deck : List Card) (msgs : List PlayerMsg)
    (tr : List SPacket),
    play_round deck msgs = some tr →
    ∃ (p1 p2 d1 d2 : Card) (deck4 : List Card),
      deck = deck4 ++ [d2, d1, p2, p1] ∧
      ∃ (drawn deckP : List Card),
        deck4 = deckP ++ drawn.reverse ∧
        ((∃ ds c, drawn = ds ++ [c] ∧
            tr = [(STATUS_ACTIVE, p1.1, p1.2), (STATUS_ACTIVE, p2.1, p2.2)]
               ++ ds.map (fun x => (STATUS_ACTIVE, x.1, x.2))
               ++ [(STATUS_LOSS, c.1, c.2)])
         ∨ (∃ (ds2 deckD : List Card) (cL : Card) (st : Nat),
              deckP = deckD ++ ds2.reverse ∧
              ([d1, d2] ++ ds2).getLast? = some cL ∧
              tr = [(STATUS_ACTIVE, p1.1, p1.2), (STATUS_ACTIVE, p2.1, p2.2)]
                 ++ drawn.map (fun x => (STATUS_ACTIVE, x.1, x.2))
                 ++ [(st, cL.1, cL.2)])) := by
  intro deck msgs tr h
  unfold play_round at h
  cases hp1 : popEnd deck with
  | none => rw [hp1] at h; simp at h
  | some q1 =>
  obtain ⟨p1, deck1⟩ := q1
  rw [hp1] at h
  simp only at h
  cases hp2 : popEnd deck1 with
  | none => rw [hp2] at h; simp at h
  | some q2 =>
  obtain ⟨p2, deck2⟩ := q2
  rw [hp2] at h
  simp only at h
  cases hp3 : popEnd deck2 with
  | none => rw [hp3] at h; simp at h
  | some q3 =>
  obtain ⟨d1, deck3⟩ := q3
  rw [hp3] at h
  simp only at h
  cases hp4 : popEnd deck3 with
  | none => rw [hp4] at h; simp at h
  | some q4 =>
  obtain ⟨d2, deck4⟩ := q4
  rw [hp4] at h
  simp only at h
  have hdeck : deck = deck4 ++ [d2, d1, p2, p1] := by
    rw [(popEnd_eq_some _ _ _).mp hp1, (popEnd_eq_some _ _ _).mp hp2,
      (popEnd_eq_some _ _ _).mp hp3, (popEnd_eq_some _ _ _).mp hp4]
    simp
  obtain ⟨drawn, deckP, hchain, hcase⟩ :=
    playerPhase_shape msgs deck4 [p1, p2] [d1, d2] _ tr h
  have hdeck4 : deck4 = deckP ++ drawn.reverse := popChain_decomp drawn deck4 deckP hchain
  refine ⟨p1, p2, d1, d2, deck4, hdeck, drawn, deckP, hdeck4, ?_⟩
  rcases hcase with ⟨ds, c, hdrawn, htr⟩ | hdp
  · exact Or.inl ⟨ds, c, hdrawn, htr⟩
  · obtain ⟨dc2, ds2, deckD, cL, hchain2, hdc2, hlast, _, _, htr⟩ :=
      dealerPhase_shape deckP ([p1, p2] ++ drawn) [d1, d2] _ tr hdp
    refine Or.inr ⟨ds2, deckD, cL,
      determine_status (calculate_hand ([p1, p2] ++ drawn)) (calculate_hand dc2),
      popChain_decomp ds2 deckP deckD hchain2, ?_, htr⟩
    rw [← hdc2]
    exact hlast

lemma nodup_bust (deckP drawn : List Card) (p1 p2 d1 d2 : Card)
    (hN : (deckP ++ drawn.reverse ++ [d2, d1, p2, p1]).Nodup) :
    (p1 :: p2 :: drawn).Nodup := by
  have h1 : List.Disjoint (deckP ++ drawn.reverse) [d2, d1, p2, p1] :=
    List.disjoint_of_nodup_append hN
  have h2 : (deckP ++ drawn.reverse).Nodup := hN.of_append_left
  have h3 : ([d2, d1, p2, p1] : List Card).Nodup := hN.of_append_right
  have h4 : List.Disjoint deckP drawn.reverse := List.disjoint_of_nodup_append h2
  have h5 : drawn.Nodup := by
    have := h2.of_append_right
    exact List.nodup_reverse.mp this
  have hp1d : p1 ∉ drawn := by
    intro hmem
    exact @h1 p1 (by simp [hmem]) (by simp)
  have hp2d : p2 ∉ drawn := by
    intro hmem
    exact @h1 p2 (by simp [hmem]) (by simp)
  have hp12 : p1 ≠ p2 := by
    intro he
    simp [he] at h3
  rw [List.nodup_cons, List.nodup_cons]
  refine ⟨?_, ?_, h5⟩
  · simp only [List.mem_cons]
    rintro (he | hmem)
    · exact hp12 he
    · exact hp1d hmem
  · exact hp2d

lemma nodup_normal (deckD ds2 drawn : List Card) (p1 p2 d1 d2 cL : Card)
    (hN : (deckD ++ ds2.reverse ++ drawn.reverse ++ [d2, d1, p2, p1]).Nodup)
    (hcL : cL = d2 ∨ cL ∈ ds2) :
    (p1 :: p2 :: (drawn ++ [cL])).Nodup := by
  have h1 : List.Disjoint (deckD ++ ds2.reverse ++ drawn.reverse) [d2, d1, p2, p1] :=
    List.disjoint_of_nodup_append hN
  have h2 : (deckD ++ ds2.reverse ++ drawn.reverse).Nodup := hN.of_append_left
  have h3 : ([d2, d1, p2, p1] : List Card).Nodup := hN.of_append_right
  have h4 : List.Disjoint (deckD ++ ds2.reverse) drawn.reverse :=
    List.disjoint_of_nodup_append h2
  have h5 : drawn.Nodup := List.nodup_reverse.mp h2.of_append_right
  have hp1d : p1 ∉ drawn := fun hmem => @h1 p1 (by simp [hmem]) (by simp)
  have hp2d : p2 ∉ drawn := fun hmem => @h1 p2 (by simp [hmem]) (by simp)
  have hp12 : p1 ≠ p2 := by
    intro he
    simp [he] at h3
  have hcLd : cL ∉ drawn := by
    rcases hcL with he | hmem
    · intro hd
      exact @h1 cL (by simp [hd]) (by simp [he])
    · intro hd
      exact @h4 cL (by simp [hmem]) (by simp [hd])
  have hcLp1 : cL ≠ p1 := by
    rcases hcL with he | hmem
    · subst he
      intro he2
      simp [he2] at h3
    · intro he2
      exact @h1 cL (by simp [hmem]) (by simp [he2])
  have hcLp2 : cL ≠ p2 := by
    rcases hcL with he | hmem
    · subst he
      intro he2
      simp [he2] at h3
    · intro he2
      exact @h1 cL (by simp [hmem]) (by simp [he2])
  rw [List.nodup_cons, List.nodup_cons]
  refine ⟨?_, ?_, ?_⟩
  · intro hmem2
    rcases List.mem_cons.mp hmem2 with he | hmem3
    · exact hp12 he
    · rcases List.mem_append.mp hmem3 with hmem4 | he
      · exact hp1d hmem4
      · simp at he
        exact hcLp1 he.symm
  · intro hmem2
    rcases List.mem_append.mp hmem2 with hmem4 | he
    · exact hp2d hmem4
    · simp at he
      exact hcLp2 he.symm
  · rw [List.nodup_append]
    exact ⟨h5, by simp, by intro a ha hb; simp at hb; subst hb; exact hcLd ha⟩

end GameServer

namespace GameServer

lemma getLast?_append_cases {α : Type} (l m : List α) (c : α)
    (h : (l ++ m).getLast? = some c) : (m = [] ∧ l.getLast? = some c) ∨ c ∈ m := by
  cases hm : m with
  | nil =>
    left
    rw [hm] at h
    simp at h
    exact ⟨rfl, h⟩
  | cons x xs =>
    right
    rw [hm] at h
    rw [List.getLast?_append_of_ne_nil l (by simp)] at h
    have hne : (x :: xs : List α) ≠ [] := by simp
    rw [List.getLast?_eq_getLast_of_ne_nil hne] at h
    simp only [Option.some.injEq] at h
    rw [← h]
    exact List.getLast_mem hne

lemma play_round_trace_nodup : ∀ (deck : List Card) (msgs : List PlayerMsg)
    (tr : List SPacket),
    deck.Nodup → play_round deck msgs = some tr →
    (tr.map (fun p => (p.2.1, p.2.2))).Nodup := by
  intro deck msgs tr hnodup h
  obtain ⟨p1, p2, d1, d2, deck4, hdeck, drawn, deckP, hdeck4, hcase⟩ :=
    play_round_shape deck msgs tr h
  rcases hcase with ⟨ds, c, hdrawn, htr⟩ | ⟨ds2, deckD, cL, st, hdeckP, hlast, htr⟩
  · subst htr
    have hmap : (([(STATUS_ACTIVE, p1.1, p1.2), (STATUS_ACTIVE, p2.1, p2.2)]
        ++ ds.map (fun x => (STATUS_ACTIVE, x.1, x.2))
        ++ [(STATUS_LOSS, c.1, c.2)]).map
          (fun p => (p.2.1, p.2.2)) : List Card) = p1 :: p2 :: (ds ++ [c]) := by
      simp [List.map_map, Function.comp_def]
    rw [hmap, ← hdrawn]
    apply nodup_bust deckP drawn p1 p2 d1 d2
    rw [hdeck, hdeck4] at hnodup
    simpa [List.append_assoc] using hnodup
  · subst htr
    have hmap : (([(STATUS_ACTIVE, p1.1, p1.2), (STATUS_ACTIVE, p2.1, p2.2)]
        ++ drawn.map (fun x => (STATUS_ACTIVE, x.1, x.2))
        ++ [(st, cL.1, cL.2)]).map
          (fun p => (p.2.1, p.2.2)) : List Card) = p1 :: p2 :: (drawn ++ [cL]) := by
      simp [List.map_map, Function.comp_def]
    rw [hmap]
    have hcL : cL = d2 ∨ cL ∈ ds2 := by
      rcases getLast?_append_cases [d1, d2] ds2 cL hlast with ⟨_, hl⟩ | hmem
      · left
        simp at hl
        exact hl.symm
      · right
        exact hmem
    apply nodup_normal deckD ds2 drawn p1 p2 d1 d2 cL ?_ hcL
    rw [hdeck, hdeck4, hdeckP] at hnodup
    simpa [List.append_assoc] using hnodup

end GameServer

namespace GameServer

lemma play_round_stand_eval :
    play_round [(5, 0), (6, 0), (7, 1), (8, 1), (9, 2), (10, 2)] [PlayerMsg.stand]
    = some [(STATUS_ACTIVE, 10, 2), (STATUS_ACTIVE, 9, 2), (STATUS_LOSS, 6, 0)] := by
  have h0 : play_round [(5, 0), (6, 0), (7, 1), (8, 1), (9, 2), (10, 2)]
      [PlayerMsg.stand]
      = dealerPhase [(5, 0), (6, 0)] [(10, 2), (9, 2)] [(8, 1), (7, 1)]
        [(STATUS_ACTIVE, 10, 2), (STATUS_ACTIVE, 9, 2)] := rfl
  rw [h0]
  simp only [dealerPhase]
  rw [if_pos (by decide),
    dealerDraw_step [(5, 0), (6, 0)] [(8, 1), (7, 1)] (6, 0) [(5, 0)]
      (by decide) (by decide),
    dealerDraw_stand [(5, 0)] ([(8, 1), (7, 1)] ++ [(6, 0)]) (by decide)]
  rfl

end GameServer

/-- Claim C8: the deck built by get_deck before shuffling holds exactly the
52 distinct (rank, suit) pairs with rank 1..13 and suit 0..3, so any
shuffled deck is a permutation of them; pop removes the returned card from
the deck (and a removed card cannot recur while the deck has no
duplicates); a full round starting from any permutation of the 52-card
deck never pops an empty deck; and on a duplicate-free deck no card is
carried by two different packets of the round's trace. -/
theorem claim_C8 :
    GameServer.get_deck_base.length = 52
  ∧ GameServer.get_deck_base.Nodup
  ∧ (∀ c : Card, c ∈ GameServer.get_deck_base ↔ (1 ≤ c.1 ∧ c.1 ≤ 13 ∧ c.2 ≤ 3))
  ∧ (∀ (l : List Card) (c : Card) (l2 : List Card),
      GameServer.popEnd l = some (c, l2) → l = l2 ++ [c] ∧ (l.Nodup → c ∉ l2))
  ∧ (∀ (deck : List Card) (msgs : List GameServer.PlayerMsg),
      deck.Perm GameServer.get_deck_base → GameServer.play_round deck msgs ≠ none)
  ∧ (∀ (deck : List Card) (msgs : List GameServer.PlayerMsg) (tr : List SPacket),
      deck.Nodup → GameServer.play_round deck msgs = some tr →
      (tr.map (fun p => (p.2.1, p.2.2))).Nodup) := by
  refine ⟨by decide, by decide, GameServer.get_deck_base_mem,
    GameServer.popEnd_removes, ?_, GameServer.play_round_trace_nodup⟩
  intro deck msgs hperm
  have hlen : deck.length = 52 := by
    rw [hperm.length_eq]
    decide
  have hrank : ∀ c ∈ deck, 1 ≤ c.1 := by
    intro c hc
    exact ((GameServer.get_deck_base_mem c).mp (hperm.mem_iff.mp hc)).1
  exact GameServer.play_round_ne_none deck msgs hlen hrank

/-- Claim C8 witness: a round on the unshuffled 52-card deck itself cannot
underflow; popping the deck top removes it; and a concrete completed round
on a 6-card duplicate-free deck has pairwise distinct cards in its trace. -/
theorem claim_C8_witness :
    GameServer.play_round GameServer.get_deck_base [] ≠ none
  ∧ ([(13, 3), (7, 0)] = [(13, 3)] ++ [(7, 0)]
      ∧ ([(13, 3), (7, 0)] : List Card).Nodup → (7, 0) ∉ ([(13, 3)] : List Card))
  ∧ (([(GameServer.STATUS_ACTIVE, 10, 2), (GameServer.STATUS_ACTIVE, 9, 2),
       (GameServer.STATUS_LOSS, 6, 0)] : List SPacket).map
        (fun p => (p.2.1, p.2.2))).Nodup := by
  refine ⟨claim_C8.2.2.2.2.1 GameServer.get_deck_base [] (List.Perm.refl _),
    ?_, ?_⟩
  · intro h
    exact (claim_C8.2.2.2.1 [(13, 3), (7, 0)] (7, 0) [(13, 3)] (by decide)).2 h.2
  · exact claim_C8.2.2.2.2.2 [(5, 0), (6, 0), (7, 1), (8, 1), (9, 2), (10, 2)]
      [GameServer.PlayerMsg.stand] _ (by decide) GameServer.play_round_stand_eval

/-- Claim C1 counterexample: on the 6-card deck whose four popped cards are
player (10,2) and (9,2), dealer (8,1) then (7,1), a round where the player
stands produces exactly three packets — the two player cards and the
terminal packet carrying the dealer's drawn card (6,0) — so no State packet
for the Dealer's first card (8,1) is ever emitted during DEALING (nor
later), and the withheld second card (7,1) is not emitted at DEALER_TURN
either, contradicting the claim. -/
theorem claim_C1_counterexample :
    GameServer.play_round [(5, 0), (6, 0), (7, 1), (8, 1), (9, 2), (10, 2)]
      [GameServer.PlayerMsg.stand]
      = some [(GameServer.STATUS_ACTIVE, 10, 2), (GameServer.STATUS_ACTIVE, 9, 2),
              (GameServer.STATUS_LOSS, 6, 0)]
  ∧ GameServer.popEnd [(5, 0), (6, 0), (7, 1), (8, 1)]
      = some ((8, 1), [(5, 0), (6, 0), (7, 1)])
  ∧ ([(GameServer.STATUS_ACTIVE, 10, 2), (GameServer.STATUS_ACTIVE, 9, 2),
      (GameServer.STATUS_LOSS, 6, 0)] : List SPacket).all
        (fun p => !(p.2.1 == 8 && p.2.2 == 1)) = true
  ∧ ([(GameServer.STATUS_ACTIVE, 10, 2), (GameServer.STATUS_ACTIVE, 9, 2)] :
      List SPacket).all (fun p => !(p.2.1 == 7 && p.2.2 == 1)) = true :=
  ⟨GameServer.play_round_stand_eval, by decide, by decide, by decide⟩


namespace GameServer

lemma packet_card_eq {st st2 : Nat} {x y : Card}
    (h : ((st, x.1, x.2) : SPacket) = (st2, y.1, y.2)) : x = y := by
  simp only [Prod.mk.injEq] at h
  exact Prod.ext h.2.1 h.2.2

lemma trace_mem_cases (p1 p2 : Card) (X : List Card) (lastpkt q : SPacket)
    (h : q ∈ ([(STATUS_ACTIVE, p1.1, p1.2), (STATUS_ACTIVE, p2.1, p2.2)]
        ++ X.map (fun x => (STATUS_ACTIVE, x.1, x.2)) ++ [lastpkt])) :
    q = (STATUS_ACTIVE, p1.1, p1.2) ∨ q = (STATUS_ACTIVE, p2.1, p2.2)
    ∨ (∃ x ∈ X, q = (STATUS_ACTIVE, x.1, x.2)) ∨ q = lastpkt := by
  rcases List.mem_append.mp h with h1 | h2
  · rcases List.mem_append.mp h1 with h0 | hmap
    · rcases List.mem_cons.mp h0 with he | h0b
      · exact Or.inl he
      · rcases List.mem_cons.mp h0b with he | hnil
        · exact Or.inr (Or.inl he)
        · exact absurd hnil (List.not_mem_nil q)
    · rw [List.mem_map] at hmap
      obtain ⟨x, hx, he⟩ := hmap
      exact Or.inr (Or.inr (Or.inl ⟨x, hx, he.symm⟩))
  · rcases List.mem_cons.mp h2 with he | hnil
    · exact Or.inr (Or.inr (Or.inr he))
    · exact absurd hnil (List.not_mem_nil q)

lemma dealing_mem_active (p1 p2 : Card) (X : List Card) (q : SPacket)
    (h : q ∈ ([(STATUS_ACTIVE, p1.1, p1.2), (STATUS_ACTIVE, p2.1, p2.2)]
        ++ X.map (fun x => (STATUS_ACTIVE, x.1, x.2)))) :
    q.1 = STATUS_ACTIVE := by
  rcases List.mem_append.mp h with h0 | hmap
  · rcases List.mem_cons.mp h0 with he | h0b
    · rw [he]
    · rcases List.mem_cons.mp h0b with he | hnil
      · rw [he]
      · exact absurd hnil (List.not_mem_nil q)
  · rw [List.mem_map] at hmap
    obtain ⟨x, hx, he⟩ := hmap
    rw [← he]

end GameServer

/-- Claim C1 (amended): during DEALING the Round Engine emits a State(Active)
packet for each of the Player's two initial cards and no packet for either
Dealer card; every packet before the terminal one is State(Active); the
Dealer's first card is never transmitted at all, and the Dealer's second
card can only ever appear as the card of the single terminal packet (it is
withheld even during DEALER_TURN, whose draws emit nothing) — in the
Player-bust-on-Hit short-circuit the terminal packet carries the player's
busting card, so no dealer card is sent. -/
theorem claim_C1 : ∀ (deck : List Card) (msgs : List GameServer.PlayerMsg)
    (tr : List SPacket) (p1 p2 d1 d2 : Card) (deck1 deck2 deck3 deck4 : List Card),
    deck.Nodup →
    GameServer.popEnd deck = some (p1, deck1) →
    GameServer.popEnd deck1 = some (p2, deck2) →
    GameServer.popEnd deck2 = some (d1, deck3) →
    GameServer.popEnd deck3 = some (d2, deck4) →
    GameServer.play_round deck msgs = some tr →
    tr.take 2 = [(GameServer.STATUS_ACTIVE, p1.1, p1.2),
                 (GameServer.STATUS_ACTIVE, p2.1, p2.2)]
    ∧ (∀ st : Nat, (st, d1.1, d1.2) ∉ tr)
    ∧ (∀ st : Nat, (st, d2.1, d2.2) ∈ tr → tr.getLast? = some (st, d2.1, d2.2))
    ∧ (∀ pkt ∈ tr.dropLast, pkt.1 = GameServer.STATUS_ACTIVE) := by
  intro deck msgs tr p1 p2 d1 d2 deck1 deck2 deck3 deck4 hnodup hp1 hp2 hp3 hp4 h
  unfold GameServer.play_round at h
  rw [hp1] at h
  simp only at h
  rw [hp2] at h
  simp only at h
  rw [hp3] at h
  simp only at h
  rw [hp4] at h
  simp only at h
  have hdeck : deck = deck4 ++ [d2, d1, p2, p1] := by
    rw [(GameServer.popEnd_eq_some _ _ _).mp hp1,
      (GameServer.popEnd_eq_some _ _ _).mp hp2,
      (GameServer.popEnd_eq_some _ _ _).mp hp3,
      (GameServer.popEnd_eq_some _ _ _).mp hp4]
    simp
  obtain ⟨drawn, deckP, hchain, hcase⟩ :=
    GameServer.playerPhase_shape msgs deck4 [p1, p2] [d1, d2] _ tr h
  have hdeck4 := GameServer.popChain_decomp drawn deck4 deckP hchain
  have hN0 : (deckP ++ drawn.reverse ++ [d2, d1, p2, p1]).Nodup := by
    rw [hdeck, hdeck4] at hnodup
    exact hnodup
  have htail : ([d2, d1, p2, p1] : List Card).Nodup := hN0.of_append_right
  have hdisj : List.Disjoint (deckP ++ drawn.reverse) [d2, d1, p2, p1] :=
    List.disjoint_of_nodup_append hN0
  have hd1p1 : d1 ≠ p1 := by intro he; simp [he] at htail
  have hd1p2 : d1 ≠ p2 := by intro he; simp [he] at htail
  have hd2p1 : d2 ≠ p1 := by intro he; simp [he] at htail
  have hd2p2 : d2 ≠ p2 := by intro he; simp [he] at htail
  have hd2d1 : d2 ≠ d1 := by intro he; simp [he] at htail
  have hd1drawn : d1 ∉ drawn := by
    intro hmem
    exact @hdisj d1 (by simp [hmem]) (by simp)
  have hd2drawn : d2 ∉ drawn := by
    intro hmem
    exact @hdisj d2 (by simp [hmem]) (by simp)
  rcases hcase with ⟨ds, c, hdrawn, htr⟩ | hdp
  · -- player-bust-on-Hit short-circuit
    have hcdrawn : c ∈ drawn := by rw [hdrawn]; simp
    have hds_sub : ∀ x ∈ ds, x ∈ drawn := by
      intro x hx
      rw [hdrawn]
      simp [hx]
    subst htr
    refine ⟨by simp, ?_, ?_, ?_⟩
    · intro st hmem
      rcases GameServer.trace_mem_cases p1 p2 ds _ _ hmem with he | he | ⟨x, hx, he⟩ | he
      · exact hd1p1 (GameServer.packet_card_eq he)
      · exact hd1p2 (GameServer.packet_card_eq he)
      · exact hd1drawn ((GameServer.packet_card_eq he) ▸ hds_sub x hx)
      · exact hd1drawn ((GameServer.packet_card_eq he) ▸ hcdrawn)
    · intro st hmem
      exfalso
      rcases GameServer.trace_mem_cases p1 p2 ds _ _ hmem with he | he | ⟨x, hx, he⟩ | he
      · exact hd2p1 (GameServer.packet_card_eq he)
      · exact hd2p2 (GameServer.packet_card_eq he)
      · exact hd2drawn ((GameServer.packet_card_eq he) ▸ hds_sub x hx)
      · exact hd2drawn ((GameServer.packet_card_eq he) ▸ hcdrawn)
    · intro pkt hm
      rw [List.dropLast_concat] at hm
      exact GameServer.dealing_mem_active p1 p2 ds pkt hm
  · obtain ⟨dc2, ds2, deckD, cL, hchain2, hdc2, hlast, _, _, htr⟩ :=
      GameServer.dealerPhase_shape deckP ([p1, p2] ++ drawn) [d1, d2] _ tr hdp
    have hdeckP := GameServer.popChain_decomp ds2 deckP deckD hchain2
    have hd1ds2 : d1 ∉ ds2 := by
      intro hmem
      exact @hdisj d1 (by rw [hdeckP]; simp [hmem]) (by simp)
    have hd2ds2 : d2 ∉ ds2 := by
      intro hmem
      exact @hdisj d2 (by rw [hdeckP]; simp [hmem]) (by simp)
    have hcL : cL = d2 ∨ cL ∈ ds2 := by
      rw [hdc2] at hlast
      rcases GameServer.getLast?_append_cases [d1, d2] ds2 cL hlast with ⟨_, hl⟩ | hmem
      · left
        simp at hl
        exact hl.symm
      · right
        exact hmem
    have hcLd1 : cL ≠ d1 := by
      rcases hcL with he | hmem
      · rw [he]
        exact Ne.symm (fun he2 => hd2d1 he2.symm)
      · intro he
        exact hd1ds2 (he ▸ hmem)
    subst htr
    refine ⟨by simp, ?_, ?_, ?_⟩
    · intro st hmem
      rcases GameServer.trace_mem_cases p1 p2 drawn _ _ hmem with he | he | ⟨x, hx, he⟩ | he
      · exact hd1p1 (GameServer.packet_card_eq he)
      · exact hd1p2 (GameServer.packet_card_eq he)
      · exact hd1drawn ((GameServer.packet_card_eq he) ▸ hx)
      · exact hcLd1 (GameServer.packet_card_eq he).symm
    · intro st hmem
      rcases GameServer.trace_mem_cases p1 p2 drawn _ _ hmem with he | he | ⟨x, hx, he⟩ | he
      · exact absurd (GameServer.packet_card_eq he) hd2p1
      · exact absurd (GameServer.packet_card_eq he) hd2p2
      · exact absurd ((GameServer.packet_card_eq he) ▸ hx) hd2drawn
      · rw [List.getLast?_concat, ← he]
    · intro pkt hm
      rw [List.dropLast_concat] at hm
      exact GameServer.dealing_mem_active p1 p2 drawn pkt hm

/-- Claim C1 witness: on the concrete stand round of the counterexample
deck, the amended statement holds — the first two packets are the player's
cards and no packet (Active or Loss) carries the dealer's first card
(8, 1). -/
theorem claim_C1_witness :
    ([(GameServer.STATUS_ACTIVE, 10, 2), (GameServer.STATUS_ACTIVE, 9, 2),
      (GameServer.STATUS_LOSS, 6, 0)] : List SPacket).take 2
      = [(GameServer.STATUS_ACTIVE, 10, 2), (GameServer.STATUS_ACTIVE, 9, 2)]
  ∧ ((GameServer.STATUS_ACTIVE, 8, 1) : SPacket)
      ∉ ([(GameServer.STATUS_ACTIVE, 10, 2), (GameServer.STATUS_ACTIVE, 9, 2),
          (GameServer.STATUS_LOSS, 6, 0)] : List SPacket)
  ∧ ((GameServer.STATUS_LOSS, 8, 1) : SPacket)
      ∉ ([(GameServer.STATUS_ACTIVE, 10, 2), (GameServer.STATUS_ACTIVE, 9, 2),
          (GameServer.STATUS_LOSS, 6, 0)] : List SPacket) := by
  have h := claim_C1 [(5, 0), (6, 0), (7, 1), (8, 1), (9, 2), (10, 2)]
    [GameServer.PlayerMsg.stand]
    [(GameServer.STATUS_ACTIVE, 10, 2), (GameServer.STATUS_ACTIVE, 9, 2),
     (GameServer.STATUS_LOSS, 6, 0)]
    (10, 2) (9, 2) (8, 1) (7, 1)
    [(5, 0), (6, 0), (7, 1), (8, 1), (9, 2)] [(5, 0), (6, 0), (7, 1), (8, 1)]
    [(5, 0), (6, 0), (7, 1)] [(5, 0), (6, 0)]
    (by decide) (by decide) (by decide) (by decide) (by decide)
    GameServer.play_round_stand_eval
  exact ⟨h.1, h.2.1 GameServer.STATUS_ACTIVE, h.2.1 GameServer.STATUS_LOSS⟩
